import Mathlib

/-!
Verification of the borehole-engine SMS credit-scoring core.

This file gives a shallow embedding, in Lean 4, of the Go sources of the
borehole engine:

* `pkg/parser/parser.go` and `pkg/parser/patterns.go` — SMS line
  classification (`parseSingleLog`, `ParseLogs`, `parseAmount`) together
  with the precompiled regular expressions they dispatch on;
* `pkg/engine/engine.go` — the 22-feature `Vectorize` aggregation;
* the 20-feature `MapFeatures` mapper and the Ed25519 `SecurityModule`
  from the engine package;
* the inference singleton (`Predict`, `GetEngine`) and the mobile
  orchestrator `CalculateBoreholeScore` from `pkg/mobile/surface.go`.

Modelling conventions:

* Go `float64` is modelled by `GoFloat`: either a finite rational value or
  one of the IEEE non-finite values NaN, +Inf, -Inf.  Arithmetic on finite
  values is exact (rational); rounding and overflow of finite operations
  are not modelled, while the non-finite propagation rules of IEEE
  (division by zero, NaN propagation, comparisons with NaN) are modelled,
  since the guarded-division claims are about exactly those.  `math.Sqrt`
  on a nonnegative finite value is modelled by `Rat.sqrt`; no claim
  depends on the rounded value of a square root, only on its finiteness
  and sign.
* Go regular expressions are embedded as an explicit syntax tree (`RE`)
  matched by a backtracking matcher with leftmost-first semantics, the
  submatch semantics of Go `regexp.Compile`.  Every repetition operator in
  the source patterns applies to a single-character class, which the
  embedding exploits for structural termination.
* `strconv.ParseFloat` is modelled on decimal syntax (sign, digits,
  fraction, exponent, and the Inf/Infinity/NaN special forms).  Hexadecimal
  floats, digit-separating underscores and the out-of-range error are not
  modelled; no claim mentions them.
* `context.Context` cancellation is modelled by a `Bool` that says whether
  the signal was already cancelled before the call, which is the only
  situation the claims quantify over.
* Ed25519 is modelled as an ideal deterministic signature scheme: a
  signature is valid exactly for the signed bytes under the signing key.
  This is the standard symbolic idealization of an unforgeable scheme.
-/

/-- Values of a Go `float64`: a finite (exact rational) value or one of the
IEEE special values.  Negative zero is identified with zero; no claim
distinguishes them. -/
inductive GoFloat where
  | fin (q : ℚ)
  | inf
  | ninf
  | nan
deriving DecidableEq

namespace GoFloat

/-- Predicate for finite (neither NaN nor infinite) values. -/
def isFin : GoFloat → Bool
  | fin _ => true
  | _ => false

/-- IEEE addition on the embedded floats (exact on finite values). -/
def add : GoFloat → GoFloat → GoFloat
  | nan, _ => nan
  | _, nan => nan
  | inf, ninf => nan
  | ninf, inf => nan
  | inf, _ => inf
  | _, inf => inf
  | ninf, _ => ninf
  | _, ninf => ninf
  | fin a, fin b => fin (a + b)

/-- IEEE negation. -/
def neg : GoFloat → GoFloat
  | fin a => fin (-a)
  | inf => ninf
  | ninf => inf
  | nan => nan

/-- IEEE subtraction. -/
def sub (x y : GoFloat) : GoFloat := add x (neg y)

/-- IEEE multiplication (exact on finite values). -/
def mul : GoFloat → GoFloat → GoFloat
  | nan, _ => nan
  | _, nan => nan
  | fin a, fin b => fin (a * b)
  | inf, fin b => if b = 0 then nan else if 0 < b then inf else ninf
  | fin a, inf => if a = 0 then nan else if 0 < a then inf else ninf
  | ninf, fin b => if b = 0 then nan else if 0 < b then ninf else inf
  | fin a, ninf => if a = 0 then nan else if 0 < a then ninf else inf
  | inf, inf => inf
  | inf, ninf => ninf
  | ninf, inf => ninf
  | ninf, ninf => inf

/-- IEEE division: finite / 0 is NaN (for 0/0) or a signed infinity, the
value Go arithmetic would produce without the `safeDiv` guard. -/
def div : GoFloat → GoFloat → GoFloat
  | nan, _ => nan
  | _, nan => nan
  | fin a, fin b =>
      if b = 0 then (if a = 0 then nan else if 0 < a then inf else ninf)
      else fin (a / b)
  | fin _, inf => fin 0
  | fin _, ninf => fin 0
  | inf, fin b => if 0 ≤ b then inf else ninf
  | ninf, fin b => if 0 ≤ b then ninf else inf
  | inf, inf => nan
  | inf, ninf => nan
  | ninf, inf => nan
  | ninf, ninf => nan

/-- Embedding of `math.Sqrt`: NaN on negative input, and a finite
nonnegative result on finite nonnegative input. -/
def sqrtF : GoFloat → GoFloat
  | nan => nan
  | inf => inf
  | ninf => nan
  | fin q => if q < 0 then nan else fin (Rat.sqrt q)

/-- IEEE equality test (`==` on Go floats): NaN compares unequal to
everything, including itself. -/
def beq : GoFloat → GoFloat → Bool
  | nan, _ => false
  | _, nan => false
  | fin a, fin b => a == b
  | inf, inf => true
  | ninf, ninf => true
  | _, _ => false

/-- IEEE strict less-than (`<` on Go floats): false whenever NaN is
involved. -/
def blt : GoFloat → GoFloat → Bool
  | nan, _ => false
  | _, nan => false
  | ninf, ninf => false
  | ninf, _ => true
  | _, ninf => false
  | inf, _ => false
  | fin _, inf => true
  | fin a, fin b => a < b

/-- IEEE strict greater-than (`>` on Go floats). -/
def bgt (x y : GoFloat) : Bool := blt y x

/-- Embedding of `math.Min`: NaN if either argument is NaN, the smaller
value otherwise. -/
def minF (x y : GoFloat) : GoFloat :=
  match x, y with
  | nan, _ => nan
  | _, nan => nan
  | a, b => if blt a b then a else b

end GoFloat

/-- The Go accumulation `total := 0; for v { total += v }` over a slice. -/
def sumF (l : List GoFloat) : GoFloat := l.foldl GoFloat.add (.fin 0)

/-! ### String utilities mirroring the Go standard library -/

/-- ASCII whitespace recognized by the embedding of `strings.TrimSpace`
(`unicode.IsSpace` restricted to ASCII, which covers every claim). -/
def isSpaceB (c : Char) : Bool :=
  c == ' ' || c == '\t' || c == '\n' || c == '\r' ||
  c == Char.ofNat 11 || c == Char.ofNat 12

/-- Embedding of `strings.TrimSpace` on the character list of a string. -/
def trimSp (l : List Char) : List Char :=
  ((l.dropWhile isSpaceB).reverse.dropWhile isSpaceB).reverse

/-- Embedding of `strings.TrimPrefix`: drop `pfx` when it is a prefix,
return the list unchanged otherwise. -/
def dropPfx (pfx l : List Char) : List Char :=
  if pfx.isPrefixOf l then l.drop pfx.length else l

/-- Embedding of `strings.Contains` (substring test). -/
def containsS (hay needle : List Char) : Bool :=
  match hay with
  | [] => needle.isEmpty
  | _ :: t => needle.isPrefixOf hay || containsS t needle

/-! ### strconv.ParseFloat -/

/-- Numeric value of an ASCII digit. -/
def digitVal (c : Char) : ℕ := c.toNat - 48

/-- Value of a digit string read most-significant first. -/
def natOfDigits (ds : List Char) : ℕ :=
  ds.foldl (fun a c => 10 * a + digitVal c) 0

/-- Mantissa value of an integer part and a fractional part (the rational
`ip + fp / 10 ^ |fp|`, written as one `mkRat` so that concrete values
reduce in the kernel). -/
def mantVal (ip fp : List Char) : ℚ :=
  mkRat (natOfDigits ip * 10 ^ fp.length + natOfDigits fp) (10 ^ fp.length)

/-- Case-insensitive string equality (ASCII folding), used for the
Inf/Infinity/NaN special forms of `strconv.ParseFloat`. -/
def ciEq (a b : List Char) : Bool :=
  a.map Char.toUpper == b.map Char.toUpper

/-- Split a leading sign character off a numeric string. -/
def splitSign (l : List Char) : Bool × List Char :=
  match l with
  | [] => (false, [])
  | c :: t => if c == '+' then (false, t) else if c == '-' then (true, t) else (false, c :: t)

/-- Split a leading `.`-fraction (its digits and the rest) off a numeric
string. -/
def splitFrac (l : List Char) : List Char × List Char :=
  match l with
  | [] => ([], [])
  | c :: t => if c == '.' then t.span Char.isDigit else ([], c :: t)

/-- Split a leading exponent sign off an exponent string. -/
def splitExpSign (l : List Char) : ℤ × List Char :=
  match l with
  | [] => (1, [])
  | c :: t => if c == '+' then (1, t) else if c == '-' then (-1, t) else (1, c :: t)

/-- Decimal-syntax core of `strconv.ParseFloat`: digits, an optional
fraction, and an optional exponent, with at least one mantissa digit and
nothing trailing. -/
def parseFloatCore (l : List Char) : Option ℚ :=
  let p1 := l.span Char.isDigit
  let p2 := splitFrac p1.2
  if p1.1.isEmpty && p2.1.isEmpty then none
  else
    match p2.2 with
    | [] => some (mantVal p1.1 p2.1)
    | e :: t =>
      if e == 'e' || e == 'E' then
        let sgnRest := splitExpSign t
        let p3 := sgnRest.2.span Char.isDigit
        if p3.1.isEmpty || !p3.2.isEmpty then none
        else some (mantVal p1.1 p2.1 * (10 : ℚ) ^ (sgnRest.1 * natOfDigits p3.1))
      else none

/-- Embedding of `strconv.ParseFloat`: the NaN and signed Inf special
forms, otherwise an optional sign followed by decimal syntax.  `none`
models a parse error. -/
def parseFloat (l : List Char) : Option GoFloat :=
  if ciEq l "nan".data then some .nan
  else
    let sgnRest := splitSign l
    if ciEq sgnRest.2 "inf".data || ciEq sgnRest.2 "infinity".data then
      some (if sgnRest.1 then .ninf else .inf)
    else
      match parseFloatCore sgnRest.2 with
      | none => none
      | some q => some (.fin (if sgnRest.1 then -q else q))

/-- Embedding of `parseAmount` from `pkg/parser/parser.go`: trim space,
strip the literal prefixes `Ksh`, `ksh`, `KES`, `kes` in that order, trim
space again, delete commas, and parse; any parse error yields 0. -/
def parseAmount (s : String) : GoFloat :=
  if s = "" then .fin 0
  else
    let l0 := trimSp s.data
    let l1 := dropPfx "Ksh".data l0
    let l2 := dropPfx "ksh".data l1
    let l3 := dropPfx "KES".data l2
    let l4 := dropPfx "kes".data l3
    let l5 := trimSp l4
    let l6 := l5.filter (fun c => !(c == ','))
    match parseFloat l6 with
    | none => .fin 0
    | some v => v

/-! ### Regular expressions (Go regexp, leftmost-first semantics) -/

/-- One item of a character class: a literal, a codepoint range, the Perl
classes `\d` and `\s` (RE2 meaning: `\s` is `[\t\n\f\r ]`), or `.`
(any character except newline). -/
inductive CSpec where
  | one (c : Char)
  | rng (lo hi : Char)
  | digit
  | space
  | anyNN
deriving DecidableEq

/-- Whitespace of the RE2 class `\s`. -/
def isReSpace (c : Char) : Bool :=
  c == ' ' || c == '\t' || c == '\n' || c == Char.ofNat 12 || c == '\r'

/-- Membership of a character in one class item. -/
def CSpec.memB : CSpec → Char → Bool
  | one d, c => c == d
  | rng lo hi, c => lo.toNat ≤ c.toNat && c.toNat ≤ hi.toNat
  | digit, c => c.isDigit
  | space, c => isReSpace c
  | anyNN, c => !(c == '\n')

/-- A character class is a disjunction of class items. -/
abbrev CC := List CSpec

/-- Membership in a character class. -/
def ccMem (cc : CC) (c : Char) : Bool := cc.any (·.memB c)

/-- Membership with optional case folding, the effect of the `(?i)` flag
on a class (a character matches when some case variant is in the class). -/
def ccMemCI (ci : Bool) (cc : CC) (c : Char) : Bool :=
  if ci then ccMem cc c || ccMem cc c.toUpper || ccMem cc c.toLower
  else ccMem cc c

/-- Literal-character comparison with optional case folding. -/
def charEqCI (ci : Bool) (pat actual : Char) : Bool :=
  if ci then pat.toUpper == actual.toUpper else pat == actual

/-- Syntax of the embedded regular expressions.  Repetition (`starC`) is
restricted to single-character classes, which covers every repetition in
`patterns.go` (`\s*`, `\s+`, `[\d,]+`, `\d*`, `[A-Z\s]+`, `.*`, `[:\s]*`,
`[A-Z0-9]+`, bounded counts desugared to options). -/
inductive RE where
  | eps
  | lit (c : Char)
  | cls (cc : CC)
  | seq (r1 r2 : RE)
  | alt (r1 r2 : RE)
  | opt (r : RE)
  | starC (cc : CC)
  | grp (i : ℕ) (r : RE)
deriving DecidableEq

/-- Captured submatches: pairs of a group index and its text. -/
abbrev Caps := List (ℕ × List Char)

/-- Greedy matching of `cc*`: consume as many class characters as
possible, backtracking into the continuation `k`. -/
def starCls {α} (ci : Bool) (cc : CC) : List Char → (List Char → Option α) → Option α
  | [], k => k []
  | c :: rest, k =>
    if ccMemCI ci cc c then
      match starCls ci cc rest k with
      | some r => some r
      | none => k (c :: rest)
    else k (c :: rest)

/-- Backtracking matcher in continuation style with leftmost-first
(Perl-style) alternation, the submatch semantics of Go `regexp.Compile`.
The continuation receives the unconsumed suffix and the captures made so
far; a `grp` node records the text its body consumed. -/
def reMatch {α} (ci : Bool) : RE → List Char → Caps → (List Char → Caps → Option α) → Option α
  | .eps, s, caps, k => k s caps
  | .lit c, s, caps, k =>
    match s with
    | [] => none
    | c' :: rest => if charEqCI ci c c' then k rest caps else none
  | .cls cc, s, caps, k =>
    match s with
    | [] => none
    | c' :: rest => if ccMemCI ci cc c' then k rest caps else none
  | .seq r1 r2, s, caps, k =>
    reMatch ci r1 s caps (fun s1 c1 => reMatch ci r2 s1 c1 k)
  | .alt r1 r2, s, caps, k =>
    match reMatch ci r1 s caps k with
    | some r => some r
    | none => reMatch ci r2 s caps k
  | .opt r, s, caps, k =>
    match reMatch ci r s caps k with
    | some res => some res
    | none => k s caps
  | .starC cc, s, caps, k => starCls ci cc s (fun s1 => k s1 caps)
  | .grp i r, s, caps, k =>
    reMatch ci r s caps (fun s1 c1 => k s1 ((i, s.take (s.length - s1.length)) :: c1))

/-- Unanchored search from the leftmost position, the scan performed by
`FindStringSubmatch`, `FindString` and `MatchString`: the result is the
matched text and the captures. -/
def reFind (ci : Bool) (r : RE) : List Char → Option (List Char × Caps)
  | [] =>
    reMatch ci r [] [] (fun s1 caps => some (([] : List Char).take (0 - s1.length), caps))
  | c :: t =>
    match reMatch ci r (c :: t) [] (fun s1 caps =>
        some ((c :: t).take ((c :: t).length - s1.length), caps)) with
    | some res => some res
    | none => reFind ci r t

/-- Embedding of `MatchString`. -/
def reTest (ci : Bool) (r : RE) (s : List Char) : Bool := (reFind ci r s).isSome

/-- Named-group extraction: in the embedding each pattern gives its named
groups fixed indices (`amt` is always 0), so `getNamedGroup` becomes a
lookup of the index; a group that did not participate yields `""`, as
`FindStringSubmatch` does. -/
def getGroup (caps : Caps) (i : ℕ) : String :=
  match caps.find? (fun e => e.1 == i) with
  | some e => String.mk e.2
  | none => ""

/-! ### Transcription helpers -/

/-- Sequence of several regular expressions. -/
def seqL (l : List RE) : RE := l.foldr .seq .eps

/-- Literal string as a regular expression. -/
def strR (s : String) : RE := seqL (s.data.map .lit)

/-- Alternation of several regular expressions (left preference). -/
def altL : List RE → RE
  | [] => .eps
  | [r] => r
  | r :: t => .alt r (altL t)

/-- One-or-more repetition of a class (`cc+`). -/
def plusC (cc : CC) : RE := .seq (.cls cc) (.starC cc)

/-- Two-letter class such as `[Cc]`. -/
def cls2 (a b : Char) : RE := .cls [.one a, .one b]

/-- Class `[A-Z0-9]`. -/
def ccUpNum : CC := [.rng 'A' 'Z', .rng '0' '9']

/-- Class `[A-Z\s]`. -/
def ccUpSp : CC := [.rng 'A' 'Z', .space]

/-- Class `[A-Z0-9\s]`. -/
def ccUpNumSp : CC := [.rng 'A' 'Z', .rng '0' '9', .space]

/-- Class `\d`. -/
def ccDigits : CC := [.digit]

/-- Class `[\d,]`. -/
def ccAmtHead : CC := [.digit, .one ',']

/-- Class `\s`. -/
def ccWs : CC := [.space]

/-- Class `[:\s]`. -/
def ccColonWs : CC := [.one ':', .space]

/-- Class `.` (any character but newline). -/
def ccAny : CC := [.anyNN]

/-- Shorthand `\s+`. -/
def wsP : RE := plusC ccWs

/-- Shorthand `\s*`. -/
def wsS : RE := .starC ccWs

/-- Shorthand `\.?`. -/
def dotOpt : RE := .opt (.lit '.')

/-- Shorthand `.*`. -/
def dotStar : RE := .starC ccAny

/-- Shorthand `(?:Ksh|KES)`. -/
def kshKes : RE := .alt (strR "Ksh") (strR "KES")

/-- Body of every `(?P<amt>[\d,]+\.?\d*)` group in `patterns.go`. -/
def amtBody : RE :=
  .seq (.cls ccAmtHead) (.seq (.starC ccAmtHead) (.seq dotOpt (.starC ccDigits)))

/-- The `amt` capture group (index 0 in every pattern of the embedding). -/
def amtGrp : RE := .grp 0 amtBody

/-- Repetition `cc{n}` desugared to a sequence. -/
def repN (cc : CC) : ℕ → RE
  | 0 => .eps
  | n + 1 => .seq (.cls cc) (repN cc n)

/-- Bounded repetition `cc{8,10}` desugared with greedy options (longest
first, as Go tries). -/
def rep810 (cc : CC) : RE :=
  .seq (repN cc 8) (.opt (.seq (.cls cc) (.opt (.cls cc))))

/-! ### The patterns of `patterns.go`

Group-index convention of the embedding: `amt` is 0, `refcode` is 1,
`sender`/`recipient`/`account`/`merchant` is 2, `lender`/`bank` is 3, and
an unnamed group is 1.  All patterns carry `(?i)` and are matched with
case folding except `amountPattern`, which has no flag. -/

/-- Pattern `mpesaReceivedPattern`. -/
def mpesaReceivedPat : RE := seqL
  [.grp 1 (.seq (strR "UA") (rep810 ccUpNum)), wsP, cls2 'C' 'c', strR "onfirmed",
   dotOpt, wsP, cls2 'Y' 'y', strR "ou", wsP, strR "have", wsP, strR "received",
   wsP, strR "Ksh", wsS, amtGrp, wsP, strR "from", wsP,
   .grp 2 (.seq (plusC ccUpSp) (.starC ccDigits))]

/-- Pattern `mpesaSentPattern`. -/
def mpesaSentPat : RE := seqL
  [.grp 1 (.seq (strR "UA") (rep810 ccUpNum)), wsP, cls2 'C' 'c', strR "onfirmed",
   dotOpt, wsP, strR "Ksh", wsS, amtGrp, wsP, strR "sent", wsP, strR "to", wsP,
   .grp 2 (.seq (plusC ccUpSp) (.starC ccDigits))]

/-- Pattern `mpesaPaybillPattern`. -/
def mpesaPaybillPat : RE := seqL
  [.grp 1 (.seq (strR "UA") (rep810 ccUpNum)), wsP, cls2 'C' 'c', strR "onfirmed",
   dotOpt, wsP, strR "Ksh", wsS, amtGrp, wsP, strR "paid", wsP, strR "to", wsP,
   .grp 2 (plusC ccUpNumSp)]

/-- Pattern `mpesaBuyGoodsPattern`. -/
def mpesaBuyGoodsPat : RE := seqL
  [.grp 1 (.seq (strR "UA") (rep810 ccUpNum)), wsP, cls2 'C' 'c', strR "onfirmed",
   dotOpt, wsP, strR "Ksh", wsS, amtGrp, wsP, strR "paid", wsP, strR "to", wsP,
   .grp 2 (plusC ccUpSp), wsS, cls2 'T' 't', strR "ill"]

/-- Pattern `fulizaLoanPattern`. -/
def fulizaLoanPat : RE := seqL
  [strR "Fuliza", dotStar, cls2 'Y' 'y', strR "ou", wsP, strR "have", wsP,
   strR "borrowed", wsP, strR "Ksh", wsS, amtGrp]

/-- Pattern `fulizaRepayPattern`. -/
def fulizaRepayPat : RE := seqL
  [strR "Fuliza", dotStar, cls2 'Y' 'y', strR "ou", wsP, strR "have", wsP,
   strR "repaid", wsP, strR "Ksh", wsS, amtGrp]

/-- Pattern `tkashReceivedPattern`. -/
def tkashReceivedPat : RE := seqL
  [strR "T-Kash", dotStar, cls2 'Y' 'y', strR "ou", wsP, strR "have", wsP,
   strR "received", wsP, strR "Ksh", wsS, amtGrp, wsP, strR "from", wsP,
   .grp 2 (plusC ccUpSp)]

/-- Pattern `tkashSentPattern`. -/
def tkashSentPat : RE := seqL
  [strR "T-Kash", dotStar, strR "Ksh", wsS, amtGrp, wsP, strR "sent", wsP,
   strR "to", wsP, .grp 2 (plusC ccUpSp)]

/-- Pattern `airtelReceivedPattern`. -/
def airtelReceivedPat : RE := seqL
  [strR "Transaction", wsP, strR "ID", .starC ccColonWs,
   .grp 1 (.seq (strR "AM") (plusC ccUpNum)), dotStar, cls2 'Y' 'y', strR "ou",
   wsP, strR "have", wsP, strR "received", wsP, kshKes, wsS, amtGrp, wsP,
   strR "from", wsP, .grp 2 (plusC ccUpSp)]

/-- Pattern `airtelSentPattern`. -/
def airtelSentPat : RE := seqL
  [strR "Transaction", wsP, strR "ID", .starC ccColonWs,
   .grp 1 (.seq (strR "AM") (plusC ccUpNum)), dotStar, kshKes, wsS, amtGrp, wsP,
   strR "sent", wsP, strR "to", wsP, .grp 2 (plusC ccUpSp)]

/-- Pattern `airtelGenericPattern`. -/
def airtelGenericPat : RE := seqL [strR "Airtel", wsS, strR "Money"]

/-- Pattern `hustlerLoanPattern`. -/
def hustlerLoanPat : RE := seqL
  [strR "Hustler", wsP, strR "Fund", dotStar,
   .alt (strR "disbursed") (strR "received"), wsP, kshKes, wsS, amtGrp]

/-- Pattern `hustlerRepayPattern`. -/
def hustlerRepayPat : RE := seqL
  [strR "Hustler", wsP, strR "Fund", dotStar, strR "repaid", wsP, kshKes, wsS,
   amtGrp]

/-- Pattern `hustlerBalancePattern`. -/
def hustlerBalancePat : RE := seqL
  [strR "Hustler", wsP, strR "Fund", dotStar, .alt (strR "balance") (strR "limit"),
   wsP, .opt (.seq (strR "is") wsP), kshKes, wsS, amtGrp]

/-- Pattern `okoaReceivedPattern`. -/
def okoaReceivedPat : RE := seqL
  [.alt (strR "received") (strR "got"), wsP, kshKes, wsS, amtGrp, wsP,
   strR "Okoa", wsP, strR "Jahazi"]

/-- Pattern `okoaDebtPattern`. -/
def okoaDebtPat : RE := seqL
  [strR "Okoa", wsP, .opt (.seq (strR "Jahazi") wsP), strR "debt", wsP,
   .opt (.seq (strR "is") wsP), kshKes, wsS, amtGrp]

/-- Pattern `okoaRepayPattern`. -/
def okoaRepayPat : RE := seqL
  [strR "Okoa", wsP, strR "Jahazi", dotStar, strR "repaid", wsP, kshKes, wsS,
   amtGrp]

/-- Lender alternation of `loanDisbursementPattern` and
`loanRepaymentPattern`. -/
def lenderAlt : RE :=
  altL [strR "Tala", strR "Branch", strR "Zenka", strR "Zash", strR "Okolea"]

/-- Pattern `digitalLenderPattern`. -/
def digitalLenderPat : RE :=
  .grp 1 (altL [strR "Tala", strR "Branch", strR "Zenka", strR "Zash",
    strR "Okolea", strR "KCB-MPESA", strR "Fuliza", strR "Timiza", strR "Berry",
    strR "Kashway"])

/-- Pattern `loanDisbursementPattern`. -/
def loanDisbursementPat : RE := seqL
  [.alt (strR "received") (strR "disbursed"), wsP, kshKes, wsS, amtGrp, wsP,
   .opt (.seq (strR "from") wsP), .grp 3 lenderAlt]

/-- Pattern `loanRepaymentPattern`. -/
def loanRepaymentPat : RE := seqL
  [kshKes, wsS, amtGrp, wsP,
   .alt (strR "paid") (seqL [strR "received", wsP, strR "by"]), wsP,
   .grp 3 lenderAlt]

/-- Pattern `mshwariDepositPattern`. -/
def mshwariDepositPat : RE := seqL
  [strR "M-Shwari", dotStar,
   altL [strR "deposited", strR "saved", strR "transferred"], wsP, kshKes, wsS,
   amtGrp]

/-- Pattern `mshwariWithdrawPattern`. -/
def mshwariWithdrawPat : RE := seqL
  [strR "M-Shwari", dotStar, .alt (strR "withdrawn") (strR "transferred"), wsP,
   kshKes, wsS, amtGrp]

/-- Subpattern `KCB\s*M-?PESA`. -/
def kcbMpesaSub : RE := seqL [strR "KCB", wsS, .lit 'M', .opt (.lit '-'), strR "PESA"]

/-- Pattern `kcbMpesaSavePattern`. -/
def kcbMpesaSavePat : RE := seqL
  [kcbMpesaSub, dotStar, altL [strR "deposited", strR "saved", strR "transferred"],
   wsP, kshKes, wsS, amtGrp]

/-- Pattern `maliSavePattern`. -/
def maliSavePat : RE := seqL
  [strR "Mali", dotStar, altL [strR "deposited", strR "invested", strR "saved"],
   wsP, kshKes, wsS, amtGrp]

/-- Pattern `stawiSavePattern`. -/
def stawiSavePat : RE := seqL
  [strR "Stawi", dotStar, .alt (strR "deposited") (strR "saved"), wsP, kshKes,
   wsS, amtGrp]

/-- Pattern `mmfPattern`. -/
def mmfPat : RE :=
  .grp 1 (altL [strR "M-Shwari", kcbMpesaSub, strR "Mali", strR "Stawi",
    seqL [strR "Lock", wsP, strR "Savings"]])

/-- Pattern `bankTransferPattern`. -/
def bankTransferPat : RE :=
  .grp 1 (altL [strR "KCB", strR "Equity",
    seqL [strR "Co", .opt (.lit '-'), strR "op", .opt (strR "erative")],
    strR "NCBA", strR "Stanbic", strR "Absa", strR "DTB", strR "I&M",
    seqL [strR "Family", wsP, strR "Bank"],
    seqL [strR "Bank", wsP, strR "of", wsP, strR "Africa"]])

/-- Bank alternation of `bankDepositPattern` and `bankWithdrawPattern`. -/
def bankAlt : RE :=
  altL [strR "KCB", strR "Equity", seqL [strR "Co", .opt (.lit '-'), strR "op"],
    strR "NCBA", strR "Stanbic", strR "Absa"]

/-- Pattern `bankDepositPattern`. -/
def bankDepositPat : RE := seqL
  [altL [strR "deposited", strR "transferred", strR "sent"], wsP, kshKes, wsS,
   amtGrp, wsP, .opt (.seq (strR "to") wsP), .grp 3 bankAlt]

/-- Pattern `bankWithdrawPattern`. -/
def bankWithdrawPat : RE := seqL
  [.alt (strR "withdrawn") (strR "received"), wsP, kshKes, wsS, amtGrp, wsP,
   .opt (.seq (strR "from") wsP), .grp 3 bankAlt]

/-- Pattern `gamblingPattern`. -/
def gamblingPat : RE :=
  .grp 1 (altL [strR "Betika", strR "SportPesa", strR "Mozzart", strR "Odibets",
    strR "Betway", strR "1xBet", strR "Betin", strR "Dafabet", strR "22Bet",
    strR "Helabet"])

/-- Pattern `amountPattern` (the only pattern without the `(?i)` flag). -/
def amountPat : RE := seqL [kshKes, wsS, amtGrp]

/-! ### Transactions and the parse functions of `parser.go` -/

/-- Transaction categories, one constructor per Go `TransactionType`
constant. -/
inductive TxnType where
  | TxnUnknown
  | TxnMPesaReceived
  | TxnMPesaSent
  | TxnMPesaPaybill
  | TxnMPesaBuyGoods
  | TxnFulizaLoan
  | TxnFulizaRepay
  | TxnTKashReceived
  | TxnTKashSent
  | TxnAirtelReceived
  | TxnAirtelSent
  | TxnHustlerLoan
  | TxnHustlerRepay
  | TxnOkoaReceived
  | TxnOkoaDebt
  | TxnDigitalLoan
  | TxnDigitalRepay
  | TxnMMFDeposit
  | TxnMMFWithdraw
  | TxnBankDeposit
  | TxnBankWithdraw
  | TxnGambling
  | TxnUtility
deriving DecidableEq

/-- A parsed transaction (Go struct `Transaction`; the `Timestamp` field is
omitted because no parsing path ever assigns it, so it always carries the
zero value). -/
structure Transaction where
  type : TxnType
  refCode : String
  amount : GoFloat
  balance : GoFloat
  recipient : String
  sender : String
  lender : String
  rawText : String
deriving DecidableEq

/-- The transaction value `parseSingleLog` starts from (`Type: TxnUnknown,
RawText: log`, zero values elsewhere). -/
def initTxn (log : String) : Transaction :=
  { type := .TxnUnknown, refCode := "", amount := .fin 0, balance := .fin 0,
    recipient := "", sender := "", lender := "", rawText := log }

/-- Embedding of `parseAirtel`.  A `none` result stands for the non-nil
error Go returns; `ParseLogs` only tests the error for nil, so the message
is not modelled. -/
def parseAirtel (log : String) (txn : Transaction) : Option Transaction :=
  match reFind true airtelReceivedPat log.data with
  | some (_, caps) =>
    some { txn with type := .TxnAirtelReceived, refCode := getGroup caps 1,
                    amount := parseAmount (getGroup caps 0),
                    sender := getGroup caps 2 }
  | none =>
  match reFind true airtelSentPat log.data with
  | some (_, caps) =>
    some { txn with type := .TxnAirtelSent, refCode := getGroup caps 1,
                    amount := parseAmount (getGroup caps 0),
                    recipient := getGroup caps 2 }
  | none =>
  if reTest true airtelGenericPat log.data then
    match reFind false amountPat log.data with
    | some (_, caps) =>
      some { txn with type := .TxnAirtelReceived,
                      amount := parseAmount (getGroup caps 0) }
    | none => none
  else none

/-- Embedding of `parseHustler`. -/
def parseHustler (log : String) (txn : Transaction) : Option Transaction :=
  match reFind true hustlerLoanPat log.data with
  | some (_, caps) =>
    some { txn with type := .TxnHustlerLoan,
                    amount := parseAmount (getGroup caps 0),
                    lender := "Hustler Fund" }
  | none =>
  match reFind true hustlerRepayPat log.data with
  | some (_, caps) =>
    some { txn with type := .TxnHustlerRepay,
                    amount := parseAmount (getGroup caps 0),
                    lender := "Hustler Fund" }
  | none =>
  match reFind true hustlerBalancePat log.data with
  | some (_, caps) =>
    some { txn with type := .TxnHustlerLoan,
                    balance := parseAmount (getGroup caps 0),
                    lender := "Hustler Fund" }
  | none => none

/-- Embedding of `parseOkoa`. -/
def parseOkoa (log : String) (txn : Transaction) : Option Transaction :=
  match reFind true okoaReceivedPat log.data with
  | some (_, caps) =>
    some { txn with type := .TxnOkoaReceived,
                    amount := parseAmount (getGroup caps 0) }
  | none =>
  match reFind true okoaDebtPat log.data with
  | some (_, caps) =>
    some { txn with type := .TxnOkoaDebt,
                    balance := parseAmount (getGroup caps 0) }
  | none =>
  match reFind true okoaRepayPat log.data with
  | some (_, caps) =>
    some { txn with type := .TxnOkoaDebt,
                    amount := parseAmount (getGroup caps 0) }
  | none => none

/-- Embedding of `parseMMF`. -/
def parseMMF (log : String) (txn : Transaction) : Option Transaction :=
  match reFind true mshwariDepositPat log.data with
  | some (_, caps) =>
    some { txn with type := .TxnMMFDeposit,
                    amount := parseAmount (getGroup caps 0),
                    recipient := "M-Shwari" }
  | none =>
  match reFind true mshwariWithdrawPat log.data with
  | some (_, caps) =>
    some { txn with type := .TxnMMFWithdraw,
                    amount := parseAmount (getGroup caps 0),
                    sender := "M-Shwari" }
  | none =>
  match reFind true kcbMpesaSavePat log.data with
  | some (_, caps) =>
    some { txn with type := .TxnMMFDeposit,
                    amount := parseAmount (getGroup caps 0),
                    recipient := "KCB M-Pesa" }
  | none =>
  match reFind true maliSavePat log.data with
  | some (_, caps) =>
    some { txn with type := .TxnMMFDeposit,
                    amount := parseAmount (getGroup caps 0),
                    recipient := "Mali" }
  | none =>
  match reFind true stawiSavePat log.data with
  | some (_, caps) =>
    some { txn with type := .TxnMMFDeposit,
                    amount := parseAmount (getGroup caps 0),
                    recipient := "Stawi" }
  | none =>
  if reTest true mmfPat log.data then
    match reFind false amountPat log.data with
    | some (_, caps) =>
      some { txn with type := .TxnMMFDeposit,
                      amount := parseAmount (getGroup caps 0) }
    | none => none
  else none

/-- Embedding of `parseDigitalLender`. -/
def parseDigitalLender (log : String) (txn : Transaction) : Option Transaction :=
  match reFind true loanDisbursementPat log.data with
  | some (_, caps) =>
    some { txn with type := .TxnDigitalLoan,
                    amount := parseAmount (getGroup caps 0),
                    lender := getGroup caps 3 }
  | none =>
  match reFind true loanRepaymentPat log.data with
  | some (_, caps) =>
    some { txn with type := .TxnDigitalRepay,
                    amount := parseAmount (getGroup caps 0),
                    lender := getGroup caps 3 }
  | none =>
  if reTest true digitalLenderPat log.data then
    match reFind false amountPat log.data with
    | some (_, caps) =>
      let up := log.data.map Char.toUpper
      let ty : TxnType :=
        if containsS up "REPAY".data || containsS up "PAID".data
        then .TxnDigitalRepay else .TxnDigitalLoan
      let baseLender : String :=
        match reFind true digitalLenderPat log.data with
        | some (m, _) => String.mk m
        | none => ""
      some { txn with type := ty, amount := parseAmount (getGroup caps 0),
                      lender := if baseLender ≠ "" then baseLender else txn.lender }
    | none => none
  else none

/-- Embedding of `parseTKash`. -/
def parseTKash (log : String) (txn : Transaction) : Option Transaction :=
  match reFind true tkashReceivedPat log.data with
  | some (_, caps) =>
    some { txn with type := .TxnTKashReceived,
                    amount := parseAmount (getGroup caps 0),
                    sender := getGroup caps 2 }
  | none =>
  match reFind true tkashSentPat log.data with
  | some (_, caps) =>
    some { txn with type := .TxnTKashSent,
                    amount := parseAmount (getGroup caps 0),
                    recipient := getGroup caps 2 }
  | none => none

/-- Embedding of `parseFuliza`. -/
def parseFuliza (log : String) (txn : Transaction) : Option Transaction :=
  match reFind true fulizaLoanPat log.data with
  | some (_, caps) =>
    some { txn with type := .TxnFulizaLoan,
                    amount := parseAmount (getGroup caps 0) }
  | none =>
  match reFind true fulizaRepayPat log.data with
  | some (_, caps) =>
    some { txn with type := .TxnFulizaRepay,
                    amount := parseAmount (getGroup caps 0) }
  | none => none

/-- Embedding of `parseMPesaAndOthers`. -/
def parseMPesaAndOthers (log : String) (txn : Transaction) : Option Transaction :=
  match reFind true mpesaReceivedPat log.data with
  | some (_, caps) =>
    some { txn with type := .TxnMPesaReceived, refCode := getGroup caps 1,
                    amount := parseAmount (getGroup caps 0),
                    sender := getGroup caps 2 }
  | none =>
  match reFind true mpesaSentPat log.data with
  | some (_, caps) =>
    some { txn with type := .TxnMPesaSent, refCode := getGroup caps 1,
                    amount := parseAmount (getGroup caps 0),
                    recipient := getGroup caps 2 }
  | none =>
  match reFind true mpesaPaybillPat log.data with
  | some (_, caps) =>
    some { txn with type := .TxnMPesaPaybill, refCode := getGroup caps 1,
                    amount := parseAmount (getGroup caps 0),
                    recipient := getGroup caps 2 }
  | none =>
  match reFind true mpesaBuyGoodsPat log.data with
  | some (_, caps) =>
    some { txn with type := .TxnMPesaBuyGoods, refCode := getGroup caps 1,
                    amount := parseAmount (getGroup caps 0),
                    recipient := getGroup caps 2 }
  | none =>
  if reTest true gamblingPat log.data then
    match reFind false amountPat log.data with
    | some (_, caps) =>
      some { txn with type := .TxnGambling,
                      amount := parseAmount (getGroup caps 0) }
    | none => some { txn with type := .TxnGambling }
  else if reTest true bankTransferPat log.data then
    match reFind true bankDepositPat log.data with
    | some (_, caps) =>
      some { txn with type := .TxnBankDeposit,
                      amount := parseAmount (getGroup caps 0),
                      recipient := getGroup caps 3 }
    | none =>
    match reFind true bankWithdrawPat log.data with
    | some (_, caps) =>
      some { txn with type := .TxnBankWithdraw,
                      amount := parseAmount (getGroup caps 0),
                      sender := getGroup caps 3 }
    | none => none
  else none

/-- Embedding of `parseSingleLog`: the case-insensitive keyword routing
followed by the selected sub-matcher. -/
def parseSingleLog (log : String) : Option Transaction :=
  let txn := initTxn log
  let up := log.data.map Char.toUpper
  if containsS up "AIRTEL".data || containsS up "AM1".data then parseAirtel log txn
  else if containsS up "HUSTLER".data then parseHustler log txn
  else if containsS up "OKOA".data then parseOkoa log txn
  else if containsS up "M-SHWARI".data || containsS up "MALI".data ||
          containsS up "STAWI".data || containsS up "KCB M-PESA".data then
    parseMMF log txn
  else if containsS up "TALA".data || containsS up "BRANCH".data ||
          containsS up "ZENKA".data || containsS up "ZASH".data ||
          containsS up "OKOLEA".data then
    parseDigitalLender log txn
  else if containsS up "T-KASH".data then parseTKash log txn
  else if containsS up "FULIZA".data then parseFuliza log txn
  else parseMPesaAndOthers log txn

/-- Loop body of `ParseLogs`: the cancellation signal is consulted at
every index divisible by 100, an unparseable log is skipped, and a parsed
transaction is appended. -/
def parseLoop (cancelled : Bool) : List String → ℕ → List Transaction →
    Except String (List Transaction)
  | [], _, acc => .ok acc.reverse
  | log :: rest, i, acc =>
    if i % 100 == 0 && cancelled then
      .error ("parsing cancelled at log " ++ Nat.repr i)
    else
      match parseSingleLog log with
      | none => parseLoop cancelled rest (i + 1) acc
      | some t => parseLoop cancelled rest (i + 1) (t :: acc)

/-- Embedding of `ParseLogs`: empty input short-circuits to an empty
result, otherwise the indexed loop runs from 0. -/
def ParseLogs (cancelled : Bool) (logs : List String) :
    Except String (List Transaction) :=
  if logs.isEmpty then .ok [] else parseLoop cancelled logs 0 []

/-! ### Feature engineering (`engine.go` Vectorize and the 20-feature
MapFeatures mapper) -/

/-- Embedding of `safeDiv`: division guarded by an IEEE equality test of
the denominator against 0. -/
def safeDiv (n d : GoFloat) : GoFloat :=
  if GoFloat.beq d (.fin 0) then .fin 0 else GoFloat.div n d

/-- Embedding of `mean`. -/
def meanF (l : List GoFloat) : GoFloat :=
  if l.isEmpty then .fin 0 else GoFloat.div (sumF l) (.fin l.length)

/-- Embedding of `stdDev` (population standard deviation). -/
def stdDevF (l : List GoFloat) : GoFloat :=
  if l.isEmpty then .fin 0
  else
    let m := meanF l
    let ss := l.foldl
      (fun acc v => GoFloat.add acc (GoFloat.mul (GoFloat.sub v m) (GoFloat.sub v m)))
      (.fin 0)
    GoFloat.sqrtF (GoFloat.div ss (.fin l.length))

/-- Embedding of `coefficientOfVariation`. -/
def covF (l : List GoFloat) : GoFloat :=
  if l.isEmpty then .fin 0
  else
    let m := meanF l
    if GoFloat.beq m (.fin 0) then .fin 0 else GoFloat.div (stdDevF l) m

/-- Accumulators of the single pass over the transactions, one field per
local variable of the Go loops. -/
structure VAcc where
  totalIncome : GoFloat := .fin 0
  totalExpenses : GoFloat := .fin 0
  gamblingSpend : GoFloat := .fin 0
  utilitySpend : GoFloat := .fin 0
  fulizaBorrowed : GoFloat := .fin 0
  fulizaRepaid : GoFloat := .fin 0
  p2pSends : GoFloat := .fin 0
  maxTxn : GoFloat := .fin 0
  hustlerBalance : GoFloat := .fin 0
  okoaCount : GoFloat := .fin 0
  airtelVolume : GoFloat := .fin 0
  mmfDeposits : GoFloat := .fin 0
  bankTxnCount : GoFloat := .fin 0
  okoaAmount : GoFloat := .fin 0
  amounts : List GoFloat := []
  incomeAmounts : List GoFloat := []
  lenders : List String := []

/-- Insertion into the `lenders` map (only its cardinality is observed). -/
def insertLender (l : String) (acc : List String) : List String :=
  if l ∈ acc then acc else acc ++ [l]

/-- Loop body of `Vectorize` in `engine.go` for one transaction. -/
def vecStep (a : VAcc) (t : Transaction) : VAcc :=
  let a := { a with amounts := a.amounts ++ [t.amount] }
  let a := if GoFloat.bgt t.amount a.maxTxn then { a with maxTxn := t.amount } else a
  match t.type with
  | .TxnMPesaReceived | .TxnTKashReceived | .TxnAirtelReceived =>
    let a := { a with totalIncome := GoFloat.add a.totalIncome t.amount,
                      incomeAmounts := a.incomeAmounts ++ [t.amount] }
    if t.type = .TxnAirtelReceived then
      { a with airtelVolume := GoFloat.add a.airtelVolume t.amount }
    else a
  | .TxnMPesaSent | .TxnTKashSent | .TxnAirtelSent =>
    let a := { a with totalExpenses := GoFloat.add a.totalExpenses t.amount,
                      p2pSends := GoFloat.add a.p2pSends t.amount }
    if t.type = .TxnAirtelSent then
      { a with airtelVolume := GoFloat.add a.airtelVolume t.amount }
    else a
  | .TxnMPesaPaybill | .TxnMPesaBuyGoods =>
    { a with totalExpenses := GoFloat.add a.totalExpenses t.amount,
             utilitySpend := GoFloat.add a.utilitySpend
               (GoFloat.mul t.amount (.fin (3 / 10))) }
  | .TxnFulizaLoan =>
    { a with fulizaBorrowed := GoFloat.add a.fulizaBorrowed t.amount,
             totalIncome := GoFloat.add a.totalIncome t.amount }
  | .TxnFulizaRepay =>
    { a with fulizaRepaid := GoFloat.add a.fulizaRepaid t.amount,
             totalExpenses := GoFloat.add a.totalExpenses t.amount }
  | .TxnHustlerLoan =>
    let a := { a with totalIncome := GoFloat.add a.totalIncome t.amount }
    let a := if GoFloat.bgt t.balance a.hustlerBalance
             then { a with hustlerBalance := t.balance } else a
    if GoFloat.bgt t.amount (.fin 0) && GoFloat.beq a.hustlerBalance (.fin 0)
    then { a with hustlerBalance := t.amount } else a
  | .TxnHustlerRepay =>
    { a with totalExpenses := GoFloat.add a.totalExpenses t.amount }
  | .TxnOkoaReceived =>
    { a with okoaCount := GoFloat.add a.okoaCount (.fin 1),
             okoaAmount := GoFloat.add a.okoaAmount t.amount,
             totalIncome := GoFloat.add a.totalIncome t.amount }
  | .TxnOkoaDebt =>
    let a := { a with okoaCount := GoFloat.add a.okoaCount (.fin 1) }
    if GoFloat.bgt t.balance (.fin 0) then { a with okoaAmount := t.balance } else a
  | .TxnDigitalLoan =>
    let a := { a with totalIncome := GoFloat.add a.totalIncome t.amount }
    if t.lender ≠ "" then { a with lenders := insertLender t.lender a.lenders } else a
  | .TxnDigitalRepay =>
    let a := { a with totalExpenses := GoFloat.add a.totalExpenses t.amount }
    if t.lender ≠ "" then { a with lenders := insertLender t.lender a.lenders } else a
  | .TxnMMFDeposit =>
    { a with mmfDeposits := GoFloat.add a.mmfDeposits t.amount,
             totalExpenses := GoFloat.add a.totalExpenses t.amount }
  | .TxnMMFWithdraw =>
    { a with totalIncome := GoFloat.add a.totalIncome t.amount }
  | .TxnBankDeposit =>
    { a with bankTxnCount := GoFloat.add a.bankTxnCount (.fin 1),
             totalExpenses := GoFloat.add a.totalExpenses t.amount }
  | .TxnBankWithdraw =>
    { a with bankTxnCount := GoFloat.add a.bankTxnCount (.fin 1),
             totalIncome := GoFloat.add a.totalIncome t.amount }
  | .TxnGambling =>
    { a with gamblingSpend := GoFloat.add a.gamblingSpend t.amount,
             totalExpenses := GoFloat.add a.totalExpenses t.amount }
  | _ => a

/-- The accumulators after the whole pass of `Vectorize`. -/
def vecAccums (txns : List Transaction) : VAcc := txns.foldl vecStep {}

/-- Embedding of `Vectorize` from `pkg/engine/engine.go`: the 22-element
feature vector (all zeros for an empty transaction list). -/
def Vectorize (txns : List Transaction) : List GoFloat :=
  if txns.isEmpty then List.replicate 22 (.fin 0)
  else
    let a := vecAccums txns
    let daysActive := GoFloat.minF (.fin txns.length) (.fin 30)
    [a.totalIncome,
     a.totalExpenses,
     GoFloat.sub a.totalIncome a.totalExpenses,
     safeDiv (sumF a.amounts) (.fin a.amounts.length),
     .fin txns.length,
     covF a.incomeAmounts,
     safeDiv a.gamblingSpend a.totalExpenses,
     safeDiv a.utilitySpend a.totalExpenses,
     safeDiv a.fulizaBorrowed a.totalIncome,
     safeDiv a.fulizaRepaid a.fulizaBorrowed,
     safeDiv a.p2pSends a.totalExpenses,
     a.maxTxn,
     stdDevF a.amounts,
     daysActive,
     safeDiv (sumF a.amounts) daysActive,
     a.hustlerBalance,
     a.okoaCount,
     a.airtelVolume,
     .fin a.lenders.length,
     safeDiv (GoFloat.add a.okoaAmount a.fulizaBorrowed) a.totalIncome,
     safeDiv a.mmfDeposits a.totalIncome,
     a.bankTxnCount]

/-- Loop body of `MapFeatures` (the 20-feature mapper): identical to
`vecStep` except in the two Okoa cases. -/
def mfStep (a : VAcc) (t : Transaction) : VAcc :=
  match t.type with
  | .TxnOkoaReceived =>
    let a := { a with amounts := a.amounts ++ [t.amount] }
    let a := if GoFloat.bgt t.amount a.maxTxn then { a with maxTxn := t.amount } else a
    let a := { a with okoaCount := GoFloat.add a.okoaCount (.fin 1),
                      totalIncome := GoFloat.add a.totalIncome t.amount }
    if GoFloat.bgt t.balance (.fin 0) then { a with okoaAmount := t.balance }
    else { a with okoaAmount := GoFloat.add a.okoaAmount t.amount }
  | .TxnOkoaDebt =>
    let a := { a with amounts := a.amounts ++ [t.amount] }
    let a := if GoFloat.bgt t.amount a.maxTxn then { a with maxTxn := t.amount } else a
    let a := { a with okoaCount := GoFloat.add a.okoaCount (.fin 1) }
    if GoFloat.bgt t.balance (.fin 0) then { a with okoaAmount := t.balance }
    else if GoFloat.bgt t.amount (.fin 0)
    then { a with okoaAmount := GoFloat.add a.okoaAmount t.amount } else a
  | _ => vecStep a t

/-- The accumulators after the whole pass of `MapFeatures`. -/
def mfAccums (txns : List Transaction) : VAcc := txns.foldl mfStep {}

/-- Embedding of `MapFeatures`: the 20-element vector consumed by the
mobile orchestrator. -/
def MapFeatures (txns : List Transaction) : List GoFloat :=
  if txns.isEmpty then List.replicate 20 (.fin 0)
  else
    let a := mfAccums txns
    [a.totalIncome,
     a.totalExpenses,
     safeDiv a.totalIncome a.totalExpenses,
     .fin txns.length,
     a.maxTxn,
     covF a.incomeAmounts,
     safeDiv a.gamblingSpend a.totalExpenses,
     safeDiv a.utilitySpend a.totalExpenses,
     safeDiv a.fulizaBorrowed a.totalIncome,
     safeDiv a.fulizaRepaid a.fulizaBorrowed,
     safeDiv a.p2pSends a.totalExpenses,
     stdDevF a.amounts,
     GoFloat.minF (.fin txns.length) (.fin 30),
     a.hustlerBalance,
     a.okoaCount,
     a.airtelVolume,
     .fin a.lenders.length,
     safeDiv (GoFloat.add a.okoaAmount a.fulizaBorrowed) a.totalIncome,
     safeDiv a.mmfDeposits a.totalIncome,
     a.bankTxnCount]

/-! ### SecurityModule (Ed25519 certificates) -/

/-- Payload signed by `IssueCertificate` (Go struct `CertificatePayload`);
times are Unix seconds. -/
structure CertificatePayload where
  Score : ℚ
  Timestamp : ℤ
  Expires : ℤ
  UserID : String
  Tampered : Bool
deriving DecidableEq

/-- Canonical serialization (`json.Marshal` of the payload struct).  The
claims treat the serialized form as opaque signed bytes, so the embedding
only needs a deterministic injective rendering; the exact float syntax Go
would emit is immaterial. -/
def marshalPayload (p : CertificatePayload) : String :=
  "\x7b\"score\":" ++ toString p.Score ++ ",\"iat\":" ++ toString p.Timestamp ++
  ",\"exp\":" ++ toString p.Expires ++ ",\"uid\":\"" ++ p.UserID ++
  "\",\"tampered\":" ++ (if p.Tampered then "true" else "false") ++ "\x7d"

/-- A signature of the ideal deterministic scheme: the signing keypair
identifier together with the exact signed bytes.  This is the standard
symbolic model of Ed25519, in which verification succeeds precisely for
the honestly signed bytes under the matching key. -/
structure Sig where
  keyId : ℕ
  data : String
deriving DecidableEq

/-- Ideal `ed25519.Sign`. -/
def edSign (key : ℕ) (data : String) : Sig := ⟨key, data⟩

/-- Ideal `ed25519.Verify`. -/
def edVerify (key : ℕ) (data : String) (sig : Sig) : Bool :=
  sig.keyId == key && sig.data == data

/-- The base64 transport of a signature: either a well-formed encoding of
a signature or a malformed string that fails to decode. -/
inductive SigWire where
  | valid (s : Sig)
  | malformed
deriving DecidableEq

/-- Base64 encoding of a signature. -/
def encodeB64 (s : Sig) : SigWire := .valid s

/-- Base64 decoding; `none` models the decode error branch. -/
def decodeB64 : SigWire → Option Sig
  | .valid s => some s
  | .malformed => none

/-- The security module: its single Ed25519 keypair, held as the keypair
identifier of the ideal scheme. -/
structure SecurityModule where
  key : ℕ
deriving DecidableEq

/-- Payload built by `IssueCertificate`.  The Go code reads the clock
twice — `Timestamp: time.Now().Unix()` and `Expires:
time.Now().Add(24*time.Hour).Unix()` — so the payload is a function of
both reads, `now1` and `now2`, in seconds. -/
def mkPayload (score : ℚ) (uid : String) (now1 now2 : ℤ) : CertificatePayload :=
  { Score := score, Timestamp := now1, Expires := now2 + 86400, UserID := uid,
    Tampered := false }

/-- Embedding of `IssueCertificate`: build the payload, serialize it, sign
those exact bytes, return the serialized payload and the encoded
signature.  (`json.Marshal` of this struct cannot fail, so the Go error
path is dead and not modelled.) -/
def IssueCertificate (m : SecurityModule) (score : ℚ) (uid : String)
    (now1 now2 : ℤ) : String × SigWire :=
  let data := marshalPayload (mkPayload score uid now1 now2)
  (data, encodeB64 (edSign m.key data))

/-- Embedding of `VerifyCertificate`: decode the signature — a decode
failure returns `(false, some error)` rather than raising — then verify
against the exact received bytes. -/
def VerifyCertificate (m : SecurityModule) (payload : String) (w : SigWire) :
    Bool × Option String :=
  match decodeB64 w with
  | none => (false, some "invalid base64 signature")
  | some sig => (edVerify m.key payload sig, none)

/-! ### InferenceEngine (`Predict`, `GetEngine`) and the orchestrator -/

/-- The margin function of a loaded tree ensemble
(`leaves.Ensemble.PredictSingle` with the embedded model). -/
abbrev EnsFun := List GoFloat → GoFloat

/-- The inference singleton value (Go struct `BoreholeEngine`): an
optional ensemble, `none` when the model failed to load. -/
structure BoreholeEngine where
  ensemble : Option EnsFun

/-- Embedding of `Predict`: 0.5 when the ensemble is nil (degraded state);
0 when fewer than 20 features are supplied; otherwise the logistic
transform of the raw margin.  `math.Exp` is passed in as `expF`. -/
def Predict (expF : GoFloat → GoFloat) (ensemble : Option EnsFun)
    (features : List GoFloat) : GoFloat :=
  match ensemble with
  | none => .fin (1 / 2)
  | some ens =>
    if features.length < 20 then .fin 0
    else GoFloat.div (.fin 1) (GoFloat.add (.fin 1) (expF (GoFloat.neg (ens features))))

/-- Outcome of the one-time model load inside `once.Do`: a successful
`leaves.XGEnsembleFromReader` call (whose error path leaves a nil
ensemble in place), or a panic recovered by the deferred handler before
the instance assignment ran. -/
inductive LoadOutcome where
  | ok (ens : Option EnsFun)
  | failed (msg : String)
  | panicked (msg : String)

/-- The module-level singleton state (`instance`, `once`, `initErr`). -/
structure EngState where
  inst : Option BoreholeEngine
  onceDone : Bool
  initErr : Option String

/-- The `once.Do` body of `GetEngine`: on success or load error the
instance is assigned (with a nil ensemble on error); on a recovered panic
the assignment never runs. -/
def runOnce (load : LoadOutcome) (s : EngState) : EngState :=
  if s.onceDone then s
  else
    match load with
    | .ok ens => { inst := some ⟨ens⟩, onceDone := true, initErr := s.initErr }
    | .failed m => { inst := some ⟨none⟩, onceDone := true, initErr := some m }
    | .panicked m => { inst := s.inst, onceDone := true, initErr := some m }

/-- Embedding of `GetEngine`: run the once-block, replace a still-nil
instance by a fresh empty engine, and return the instance with a
literally nil error (`return instance, nil`). -/
def GetEngine (load : LoadOutcome) (s : EngState) :
    EngState × Option BoreholeEngine × Option String :=
  let s1 := runOnce load s
  let s2 := if s1.inst.isNone then { s1 with inst := some ⟨none⟩ } else s1
  (s2, s2.inst, none)

/-- Boundary result of the orchestrator `CalculateBoreholeScore`
(`pkg/mobile/surface.go`), one constructor per JSON shape it can emit,
plus a marker for the nil-pointer crash Go would hit if `GetEngine` ever
returned a nil instance. -/
inductive CalcResult where
  | invalidJson
  | parsingFailed (msg : String)
  | engineInitFailed (msg : String)
  | nilEngineCrash
  | ok (score : GoFloat) (features : List GoFloat) (txnCount : ℕ)

/-- Embedding of `CalculateBoreholeScore`: JSON decode, `ParseLogs`,
`MapFeatures`, `GetEngine`, `Predict`.  `input` is the decoded request
(`none` models a JSON unmarshal error). -/
def CalculateBoreholeScore (expF : GoFloat → GoFloat) (load : LoadOutcome)
    (cancelled : Bool) (s : EngState) (input : Option (List String)) : CalcResult :=
  match input with
  | none => .invalidJson
  | some logs =>
    match ParseLogs cancelled logs with
    | .error e => .parsingFailed e
    | .ok txns =>
      let features := MapFeatures txns
      let r := GetEngine load s
      match r.2.2 with
      | some m => .engineInitFailed m
      | none =>
        match r.2.1 with
        | none => .nilEngineCrash
        | some eng => .ok (Predict expF eng.ensemble features) features txns.length

/-! ### Auxiliary definitions used by the statements -/

/-- ASCII digit character of a digit value. -/
def digitChar (d : ℕ) : Char := Char.ofNat (48 + d)

/-- String of a digit list, most significant first. -/
def digitsStr (ds : List ℕ) : String := String.mk (ds.map digitChar)

/-- Numeric value of a digit list, most significant first. -/
def digitsVal (ds : List ℕ) : ℕ := ds.foldl (fun a d => 10 * a + d) 0

/-- The unmatchable example line of the specification (built around an
explicit apostrophe codepoint). -/
def c5line : String :=
  "Invalid log message that won" ++ String.mk [Char.ofNat 39] ++ "t match"

/-- Characters the `amt` capture class `[\d,]` together with the literal
dot can produce. -/
def amtChar (c : Char) : Bool := c.isDigit || c == ',' || c == '.'

/-- Every capture recorded under group index 0 (the `amt` group of the
embedding) consists of amount characters. -/
def Caps0OK (caps : Caps) : Prop :=
  ∀ e ∈ caps, e.1 = 0 → ∀ c ∈ e.2, amtChar c = true

/-- Syntactic check: the regular expression contains no capture group of
index 0. -/
def noG0 : RE → Bool
  | .eps | .lit _ | .cls _ | .starC _ => true
  | .seq a b => noG0 a && noG0 b
  | .alt a b => noG0 a && noG0 b
  | .opt r => noG0 r
  | .grp i r => !(i == 0) && noG0 r

/-- Syntactic check: every group of index 0 has exactly the body
`amtBody`, and no other group hides an index-0 group inside. -/
def groupsAmt : RE → Bool
  | .eps | .lit _ | .cls _ | .starC _ => true
  | .seq a b => groupsAmt a && groupsAmt b
  | .alt a b => groupsAmt a && groupsAmt b
  | .opt r => groupsAmt r
  | .grp i r => if i == 0 then r == amtBody else noG0 r

/-- A finite nonnegative embedded float, the shape of every parsed
amount. -/
def amountOk (x : GoFloat) : Prop := ∃ q : ℚ, x = .fin q ∧ 0 ≤ q

/-! ### Basic lemmas about the batch loop and the vectorizer -/

/-- With a live (non-cancelled) signal the loop is a filter: unparseable
lines are skipped and the batch always succeeds. -/
theorem parseLoop_nocancel (logs : List String) :
    ∀ (i : ℕ) (acc : List Transaction),
    parseLoop false logs i acc = .ok (acc.reverse ++ logs.filterMap parseSingleLog) := by
  induction logs with
  | nil => intro i acc; simp [parseLoop]
  | cons log rest ih =>
    intro i acc
    cases h : parseSingleLog log with
    | none => simp [parseLoop, h, ih]
    | some t => simp [parseLoop, h, ih]

/-- `ParseLogs` with a live signal returns exactly the parseable lines. -/
theorem ParseLogs_nocancel (logs : List String) :
    ParseLogs false logs = .ok (logs.filterMap parseSingleLog) := by
  cases logs with
  | nil => rfl
  | cons l rest => simpa using parseLoop_nocancel (l :: rest) 0 []

/-- The feature vector of `Vectorize` always has 22 entries. -/
theorem vectorize_len (txns : List Transaction) : (Vectorize txns).length = 22 := by
  unfold Vectorize
  split <;> simp

/-- The feature vector of `MapFeatures` always has 20 entries. -/
theorem mapFeatures_len (txns : List Transaction) : (MapFeatures txns).length = 20 := by
  unfold MapFeatures
  split <;> simp

/-- C5: with a non-cancelled signal a line that fails to parse never makes
`ParseLogs` fail — the batch is the list of parseable lines — and the
all-unmatchable example batch succeeds with zero transactions. -/
theorem c5_malformed_lines_skipped :
    (∀ logs : List String, ParseLogs false logs = .ok (logs.filterMap parseSingleLog)) ∧
    parseSingleLog c5line = none ∧
    ParseLogs false [c5line] = .ok [] := by
  refine ⟨ParseLogs_nocancel, by decide, by rfl⟩

/-- C6: a batch of at least 100 lines under an already-cancelled signal
fails with the cancellation error raised at the very first stride check
(index 0), and no partial transaction list is returned. -/
theorem c6_cancelled_batch (logs : List String) (h : 100 ≤ logs.length) :
    ParseLogs true logs = .error ("parsing cancelled at log 0") ∧
    ∀ txns, ParseLogs true logs ≠ .ok txns := by
  cases logs with
  | nil => simp at h
  | cons l rest =>
    constructor
    · rfl
    · intro txns hcontra
      exact absurd hcontra (by simp [ParseLogs, parseLoop])

/-- Witness for C6 at a concrete 100-line batch. -/
theorem c6_cancelled_batch_witness :
    ParseLogs true (List.replicate 100 "x") = .error ("parsing cancelled at log 0") ∧
    ∀ txns, ParseLogs true (List.replicate 100 "x") ≠ .ok txns :=
  c6_cancelled_batch (List.replicate 100 "x") (by simp)

/-- C10: `GetEngine` returns a non-nil instance and a nil error for every
load outcome and every prior singleton state, so the orchestrator branch
that reports `engine_initialization_failed` can never be taken. -/
theorem c10_engine_init_unreachable (load : LoadOutcome) (s : EngState) :
    ((GetEngine load s).2.1).isSome = true ∧
    (GetEngine load s).2.2 = none ∧
    ∀ (expF : GoFloat → GoFloat) (cancelled : Bool) (input : Option (List String))
      (m : String),
      CalculateBoreholeScore expF load cancelled s input ≠ .engineInitFailed m := by
  refine ⟨?_, rfl, ?_⟩
  · unfold GetEngine
    cases h : (runOnce load s).inst with
    | none => simp [h]
    | some e => simp [h]
  · intro expF cancelled input m
    unfold CalculateBoreholeScore
    cases input with
    | none => simp
    | some logs =>
      cases hp : ParseLogs cancelled logs with
      | error e => simp [hp]
      | ok txns =>
        simp only [hp]
        unfold GetEngine
        cases h : (runOnce load s).inst with
        | none => simp [h]
        | some e => simp [h]

/-- C1: for every batch of input lines the composed pipeline
`Vectorize ∘ ParseLogs` yields exactly 22 features, the length is the same
for every transaction list, and the empty batch yields the all-zero
vector. -/
theorem c1_vectorize_dim (lines : List String) (txns : List Transaction)
    (h : ParseLogs false lines = .ok txns) :
    (Vectorize txns).length = 22 ∧
    (∀ ts : List Transaction, (Vectorize ts).length = 22) ∧
    (lines = [] → Vectorize txns = List.replicate 22 (.fin 0)) := by
  refine ⟨vectorize_len txns, vectorize_len, ?_⟩
  rintro rfl
  have : txns = [] := by
    have h0 : ParseLogs false ([] : List String) = .ok [] := rfl
    rw [h0] at h
    exact (Except.ok.injEq _ _).mp h.symm
  rw [this]
  rfl

/-- Witness for C1 at the empty batch. -/
theorem c1_vectorize_dim_witness :
    ParseLogs false [] = .ok [] ∧ (Vectorize []).length = 22 ∧
    Vectorize [] = List.replicate 22 (.fin 0) :=
  ⟨rfl, (c1_vectorize_dim [] [] rfl).1, (c1_vectorize_dim [] [] rfl).2.2 rfl⟩

/-- C2 counterexample: with a live ensemble and a 19-element vector (a
length mismatch) `Predict` returns exactly 0, not the neutral 0.5 the
claim states. -/
theorem c2_predict_cex :
    Predict (fun _ => .fin 1) (some (fun _ => .fin 0)) (List.replicate 19 (.fin 0)) =
      .fin 0 ∧
    GoFloat.fin 0 ≠ .fin (1 / 2) := by
  refine ⟨by rfl, fun h => absurd (GoFloat.fin.inj h) (by norm_num)⟩

/-- C2 amended: `Predict` returns 0.5 in the degraded state, 0 (not 0.5)
when fewer than 20 features are supplied to a live ensemble, and otherwise
the logistic transform of the raw margin; under the mathematical facts
about `math.Exp` (its value is `+Inf` or a finite nonnegative number) the
result always lies in `[0, 1]`. -/
theorem c2_predict_amended (expF : GoFloat → GoFloat)
    (hexp : ∀ x, expF x = .inf ∨ ∃ r : ℚ, 0 ≤ r ∧ expF x = .fin r)
    (features : List GoFloat) :
    (Predict expF none features = .fin (1 / 2)) ∧
    (∀ ens : EnsFun, features.length < 20 →
      Predict expF (some ens) features = .fin 0) ∧
    (∀ ens : EnsFun, 20 ≤ features.length →
      Predict expF (some ens) features =
        GoFloat.div (.fin 1) (GoFloat.add (.fin 1) (expF (GoFloat.neg (ens features))))) ∧
    (∀ e : Option EnsFun, ∃ q : ℚ, Predict expF e features = .fin q ∧ 0 ≤ q ∧ q ≤ 1) := by
  refine ⟨rfl, ?_, ?_, ?_⟩
  · intro ens hlt
    simp [Predict, hlt]
  · intro ens hge
    simp [Predict, Nat.not_lt.mpr hge]
  · intro e
    cases e with
    | none => exact ⟨1 / 2, rfl, by norm_num, by norm_num⟩
    | some ens =>
      by_cases hlt : features.length < 20
      · exact ⟨0, by simp [Predict, hlt], le_refl 0, by norm_num⟩
      · rcases hexp (GoFloat.neg (ens features)) with hinf | ⟨r, hr, hfin⟩
        · refine ⟨0, ?_, le_refl 0, by norm_num⟩
          simp [Predict, hlt, hinf, GoFloat.add, GoFloat.div]
        · refine ⟨1 / (1 + r), ?_, by positivity, ?_⟩
          · have h1r : (1 + r) ≠ 0 := by positivity
            simp [Predict, hlt, hfin, GoFloat.add, GoFloat.div, h1r]
          · rw [div_le_one (by positivity)]
            linarith

/-- Witness for C2 amended, at a concrete positive exponential model, an
ensemble with zero margin and the empty feature vector. -/
theorem c2_predict_amended_witness :
    (Predict (fun _ => .fin 1) none [] = .fin (1 / 2)) ∧
    (Predict (fun _ => .fin 1) (some (fun _ => .fin 3)) [] = .fin 0) ∧
    (∃ q : ℚ, Predict (fun _ => .fin 1) none [] = .fin q ∧ 0 ≤ q ∧ q ≤ 1) := by
  have h := c2_predict_amended (fun _ => .fin 1)
    (fun _ => Or.inr ⟨1, by norm_num, rfl⟩) []
  exact ⟨h.1, h.2.1 (fun _ => .fin 3) (by simp), h.2.2.2 none⟩

/-- C3: a certificate verifies under the issuing keypair; verification of
any different payload bytes (in particular a single mutated byte) or
verification under a different keypair returns `false` with no error
rather than raising. -/
theorem c3_certificate_verify (m : SecurityModule) (score : ℚ) (uid : String)
    (n1 n2 : ℤ) :
    (VerifyCertificate m (IssueCertificate m score uid n1 n2).1
        (IssueCertificate m score uid n1 n2).2) = (true, none) ∧
    (∀ payload2 : String, payload2 ≠ (IssueCertificate m score uid n1 n2).1 →
      (VerifyCertificate m payload2 (IssueCertificate m score uid n1 n2).2) =
        (false, none)) ∧
    (∀ (i : ℕ) (c : Char),
      String.mk ((IssueCertificate m score uid n1 n2).1.data.set i c) ≠
          (IssueCertificate m score uid n1 n2).1 →
      (VerifyCertificate m
          (String.mk ((IssueCertificate m score uid n1 n2).1.data.set i c))
          (IssueCertificate m score uid n1 n2).2) = (false, none)) ∧
    (∀ m2 : SecurityModule, m2.key ≠ m.key →
      (VerifyCertificate m2 (IssueCertificate m score uid n1 n2).1
          (IssueCertificate m score uid n1 n2).2) = (false, none)) := by
  refine ⟨?_, ?_, ?_, ?_⟩
  · simp [VerifyCertificate, IssueCertificate, decodeB64, encodeB64, edVerify, edSign]
  · intro payload2 hne
    simp [VerifyCertificate, IssueCertificate, decodeB64, encodeB64, edVerify, edSign]
    exact fun h => absurd h.symm hne
  · intro i c hne
    simp [VerifyCertificate, IssueCertificate, decodeB64, encodeB64, edVerify, edSign]
    intro h
    exact absurd h.symm (by simpa [IssueCertificate] using hne)
  · intro m2 hne
    simp [VerifyCertificate, IssueCertificate, decodeB64, encodeB64, edVerify, edSign]
    intro h
    exact hne h.symm

/-- Witness for C3 at a concrete keypair, score, subject, clock reads, a
concrete one-byte mutation and a concrete second keypair. -/
theorem c3_certificate_verify_witness :
    (VerifyCertificate ⟨0⟩ (IssueCertificate ⟨0⟩ 0 "u" 0 0).1
        (IssueCertificate ⟨0⟩ 0 "u" 0 0).2) = (true, none) ∧
    (VerifyCertificate ⟨0⟩
        (String.mk ((IssueCertificate ⟨0⟩ 0 "u" 0 0).1.data.set 0 'X'))
        (IssueCertificate ⟨0⟩ 0 "u" 0 0).2) = (false, none) ∧
    (VerifyCertificate ⟨1⟩ (IssueCertificate ⟨0⟩ 0 "u" 0 0).1
        (IssueCertificate ⟨0⟩ 0 "u" 0 0).2) = (false, none) := by
  have h := c3_certificate_verify ⟨0⟩ 0 "u" 0 0
  exact ⟨h.1, h.2.2.1 0 'X' (by decide), h.2.2.2 ⟨1⟩ (by decide)⟩

/-- C4 counterexample: the two clock reads of `IssueCertificate` are
distinct calls, so with reads one second apart the built payload has
`expires_at - issued_at = 86401`, not exactly 24 hours. -/
theorem c4_expiry_cex :
    (IssueCertificate ⟨0⟩ (1 / 2) "u" 0 1).1 =
      marshalPayload (mkPayload (1 / 2) "u" 0 1) ∧
    (mkPayload (1 / 2) "u" 0 1).Timestamp = 0 ∧
    (mkPayload (1 / 2) "u" 0 1).Expires = 86401 ∧
    (mkPayload (1 / 2) "u" 0 1).Expires ≠ (mkPayload (1 / 2) "u" 0 1).Timestamp + 86400 := by
  refine ⟨rfl, rfl, rfl, by decide⟩

/-- C4 amended: the tamper flag of the payload built by `IssueCertificate`
is always false, `expires_at` equals the second clock read plus 24 hours,
and equals `issued_at + 24h` exactly whenever the two consecutive
clock reads return the same Unix second. -/
theorem c4_expiry_amended (score : ℚ) (uid : String) (n1 n2 : ℤ) :
    (mkPayload score uid n1 n2).Tampered = false ∧
    (mkPayload score uid n1 n2).Timestamp = n1 ∧
    (mkPayload score uid n1 n2).Expires = n2 + 86400 ∧
    (n2 = n1 →
      (mkPayload score uid n1 n2).Expires = (mkPayload score uid n1 n2).Timestamp + 86400) ∧
    (IssueCertificate ⟨0⟩ score uid n1 n2).1 = marshalPayload (mkPayload score uid n1 n2) := by
  refine ⟨rfl, rfl, rfl, ?_, rfl⟩
  rintro rfl
  rfl

/-- Witness for C4 amended at equal clock reads. -/
theorem c4_expiry_amended_witness :
    (mkPayload (1 / 2) "u" 5 5).Tampered = false ∧
    (mkPayload (1 / 2) "u" 5 5).Expires = (mkPayload (1 / 2) "u" 5 5).Timestamp + 86400 :=
  ⟨(c4_expiry_amended (1 / 2) "u" 5 5).1, (c4_expiry_amended (1 / 2) "u" 5 5).2.2.2.1 rfl⟩

/-! ### Lemmas about parseAmount on prefixed digit strings (claim C7) -/

theorem digitChar_isDigit : ∀ d < 10, Char.isDigit (digitChar d) = true := by decide

theorem digitChar_notSpace : ∀ d < 10, isSpaceB (digitChar d) = false := by decide

theorem digitChar_toUpper : ∀ d < 10, Char.toUpper (digitChar d) = digitChar d := by decide

theorem digitChar_ne_upperN : ∀ d < 10, digitChar d ≠ 'N' := by decide

theorem digitChar_ne_upperI : ∀ d < 10, digitChar d ≠ 'I' := by decide

theorem beq_plus_digitChar : ∀ d < 10, ('+' == digitChar d) = false := by decide

theorem digitChar_beq_plus : ∀ d < 10, (digitChar d == '+') = false := by decide

theorem digitChar_beq_minus : ∀ d < 10, (digitChar d == '-') = false := by decide

theorem digitChar_beq_comma : ∀ d < 10, (digitChar d == ',') = false := by decide

theorem beq_k_digitChar : ∀ d < 10, ('k' == digitChar d) = false := by decide

theorem beq_K_digitChar : ∀ d < 10, ('K' == digitChar d) = false := by decide

theorem digitVal_digitChar : ∀ d < 10, digitVal (digitChar d) = d := by decide

theorem dropWhile_no {p : Char → Bool} : ∀ l : List Char, (∀ c ∈ l, p c = false) →
    l.dropWhile p = l := by
  intro l h
  induction l with
  | nil => rfl
  | cons c t ih => simp [List.dropWhile, h c (by simp)]

theorem takeWhile_all {p : Char → Bool} : ∀ l : List Char, (∀ c ∈ l, p c = true) →
    l.takeWhile p = l ∧ l.dropWhile p = [] := by
  intro l h
  induction l with
  | nil => exact ⟨rfl, rfl⟩
  | cons c t ih =>
    have ht := ih (fun c hc => h c (by simp [hc]))
    simp [List.takeWhile, List.dropWhile, h c (by simp), ht.1, ht.2]

theorem trimSp_no (l : List Char) (h : ∀ c ∈ l, isSpaceB c = false) : trimSp l = l := by
  unfold trimSp
  rw [dropWhile_no l h, dropWhile_no l.reverse (fun c hc => h c (List.mem_reverse.mp hc)),
    List.reverse_reverse]

theorem dropPfx_strip (p l : List Char) : dropPfx p (p ++ l) = l := by
  unfold dropPfx
  rw [if_pos (List.isPrefixOf_iff_prefix.mpr (List.prefix_append p l)), List.drop_left]

theorem dropPfx_no (p l : List Char) (h : p.isPrefixOf l = false) : dropPfx p l = l := by
  unfold dropPfx
  simp [h]

theorem isPrefixOf_cons_ne {a b : Char} {as bs : List Char} (h : (a == b) = false) :
    (a :: as).isPrefixOf (b :: bs) = false := by
  simp [List.isPrefixOf]
  intro hab
  simp [hab] at h

theorem span_digits (ds : List ℕ) (hlt : ∀ d ∈ ds, d < 10) :
    (ds.map digitChar).span Char.isDigit = (ds.map digitChar, []) := by
  have h : ∀ c ∈ ds.map digitChar, Char.isDigit c = true := by
    intro c hc
    obtain ⟨d, hd, rfl⟩ := List.mem_map.mp hc
    exact digitChar_isDigit d (hlt d hd)
  have := takeWhile_all (ds.map digitChar) h
  rw [List.span_eq_take_drop, this.1, this.2]

theorem natOfDigits_map (ds : List ℕ) (hlt : ∀ d ∈ ds, d < 10) :
    natOfDigits (ds.map digitChar) = digitsVal ds := by
  unfold natOfDigits digitsVal
  rw [List.foldl_map]
  suffices h : ∀ a : ℕ, ds.foldl (fun x c => 10 * x + digitVal (digitChar c)) a =
      ds.foldl (fun x d => 10 * x + d) a from h 0
  induction ds with
  | nil => intro a; rfl
  | cons d t ih =>
    intro a
    have hd : d < 10 := hlt d (by simp)
    simp only [List.foldl_cons, digitVal_digitChar d hd]
    exact ih (fun x hx => hlt x (by simp [hx])) _

theorem mantVal_digits (L : List Char) : mantVal L [] = (natOfDigits L : ℚ) := by
  unfold mantVal
  simp [natOfDigits]

theorem ciEq_cons_ne {a b : Char} {as bs : List Char}
    (h : Char.toUpper a ≠ Char.toUpper b) : ciEq (a :: as) (b :: bs) = false := by
  simp [ciEq]
  intro hEq
  exact absurd hEq h

theorem parseFloatCore_digits (ds : List ℕ) (hne : ds ≠ []) (hlt : ∀ d ∈ ds, d < 10) :
    parseFloatCore (ds.map digitChar) = some ((digitsVal ds : ℕ) : ℚ) := by
  have hsp := span_digits ds hlt
  have hmapne : ds.map digitChar ≠ [] := by simpa using hne
  simp only [parseFloatCore, hsp, splitFrac]
  rw [if_neg (by simp [hmapne])]
  simp [mantVal_digits, natOfDigits_map ds hlt]

theorem splitSign_digit {d : ℕ} (hd : d < 10) (t : List Char) :
    splitSign (digitChar d :: t) = (false, digitChar d :: t) := by
  simp [splitSign, digitChar_beq_plus d hd, digitChar_beq_minus d hd]

theorem parseFloat_digits (ds : List ℕ) (hne : ds ≠ []) (hlt : ∀ d ∈ ds, d < 10) :
    parseFloat (ds.map digitChar) = some (.fin ((digitsVal ds : ℕ) : ℚ)) := by
  obtain ⟨d, t, rfl⟩ : ∃ d t, ds = d :: t := by
    cases ds with
    | nil => exact absurd rfl hne
    | cons d t => exact ⟨d, t, rfl⟩
  have hd : d < 10 := hlt d (by simp)
  have hupper := digitChar_toUpper d hd
  simp only [List.map_cons, parseFloat]
  rw [if_neg (by
    rw [ciEq_cons_ne (by rw [hupper]; exact fun h => digitChar_ne_upperN d hd (by simpa using h))]
    simp)]
  simp only [splitSign_digit hd]
  rw [if_neg (by
    rw [ciEq_cons_ne (by rw [hupper]; exact fun h => digitChar_ne_upperI d hd (by simpa using h)),
      ciEq_cons_ne (by rw [hupper]; exact fun h => digitChar_ne_upperI d hd (by simpa using h))]
    simp)]
  have := parseFloatCore_digits (d :: t) hne hlt
  simp only [List.map_cons] at this
  simp [this]

theorem mem_digits_notSpace {ds : List ℕ} (hlt : ∀ d ∈ ds, d < 10) :
    ∀ c ∈ ds.map digitChar, isSpaceB c = false := by
  intro c hc
  obtain ⟨d, hd, rfl⟩ := List.mem_map.mp hc
  exact digitChar_notSpace d (hlt d hd)

theorem filter_digits {ds : List ℕ} (hlt : ∀ d ∈ ds, d < 10) :
    (ds.map digitChar).filter (fun c => !(c == ',')) = ds.map digitChar := by
  rw [List.filter_eq_self]
  intro c hc
  obtain ⟨d, hd, rfl⟩ := List.mem_map.mp hc
  simp [digitChar_beq_comma d (hlt d hd)]

theorem data_app3 (a b c : Char) (l : List Char) :
    (String.mk [a, b, c] ++ String.mk l).data = a :: b :: c :: l := rfl

theorem parseAmount_Ksh (ds : List ℕ) (hne : ds ≠ []) (hlt : ∀ d ∈ ds, d < 10) :
    parseAmount ("Ksh" ++ digitsStr ds) = .fin ((digitsVal ds : ℕ) : ℚ) := by
  obtain ⟨d, t, rfl⟩ : ∃ d t, ds = d :: t := by
    cases ds with
    | nil => exact absurd rfl hne
    | cons d t => exact ⟨d, t, rfl⟩
  have hd : d < 10 := hlt d (by simp)
  have hdata : ("Ksh" ++ digitsStr (d :: t)).data =
      'K' :: 's' :: 'h' :: (d :: t).map digitChar := rfl
  have hsne : ("Ksh" ++ digitsStr (d :: t)) ≠ "" := by
    intro h
    have := congrArg String.data h
    rw [hdata] at this
    exact absurd this (by simp)
  have hnospace : ∀ c ∈ 'K' :: 's' :: 'h' :: (d :: t).map digitChar, isSpaceB c = false := by
    intro c hc
    simp only [List.mem_cons] at hc
    rcases hc with rfl | rfl | rfl | hc
    · rfl
    · rfl
    · rfl
    · exact mem_digits_notSpace hlt c hc
  unfold parseAmount
  rw [if_neg hsne, hdata, trimSp_no _ hnospace]
  dsimp only
  rw [show ('K' :: 's' :: 'h' :: (d :: t).map digitChar) =
    "Ksh".data ++ (d :: t).map digitChar from rfl, dropPfx_strip]
  rw [show ((d :: t).map digitChar) = digitChar d :: t.map digitChar from rfl]
  rw [dropPfx_no _ _ (isPrefixOf_cons_ne (beq_k_digitChar d hd)),
    dropPfx_no _ _ (isPrefixOf_cons_ne (beq_K_digitChar d hd)),
    dropPfx_no _ _ (isPrefixOf_cons_ne (beq_k_digitChar d hd))]
  rw [show (digitChar d :: t.map digitChar) = (d :: t).map digitChar from rfl]
  rw [trimSp_no _ (mem_digits_notSpace hlt), filter_digits hlt,
    parseFloat_digits (d :: t) hne hlt]

theorem parseFloat_K (r : List Char) : parseFloat ('K' :: r) = none := rfl

theorem parseAmount_ksh (ds : List ℕ) (hne : ds ≠ []) (hlt : ∀ d ∈ ds, d < 10) :
    parseAmount ("ksh" ++ digitsStr ds) = .fin ((digitsVal ds : ℕ) : ℚ) := by
  obtain ⟨d, t, rfl⟩ : ∃ d t, ds = d :: t := by
    cases ds with
    | nil => exact absurd rfl hne
    | cons d t => exact ⟨d, t, rfl⟩
  have hd : d < 10 := hlt d (by simp)
  have hdata : ("ksh" ++ digitsStr (d :: t)).data =
      'k' :: 's' :: 'h' :: (d :: t).map digitChar := rfl
  have hsne : ("ksh" ++ digitsStr (d :: t)) ≠ "" := by
    intro h
    have := congrArg String.data h
    rw [hdata] at this
    exact absurd this (by simp)
  have hnospace : ∀ c ∈ 'k' :: 's' :: 'h' :: (d :: t).map digitChar, isSpaceB c = false := by
    intro c hc
    simp only [List.mem_cons] at hc
    rcases hc with rfl | rfl | rfl | hc
    · rfl
    · rfl
    · rfl
    · exact mem_digits_notSpace hlt c hc
  unfold parseAmount
  rw [if_neg hsne, hdata, trimSp_no _ hnospace]
  dsimp only
  rw [dropPfx_no "Ksh".data ('k' :: 's' :: 'h' :: (d :: t).map digitChar) rfl]
  rw [show ('k' :: 's' :: 'h' :: (d :: t).map digitChar) =
    "ksh".data ++ (d :: t).map digitChar from rfl, dropPfx_strip]
  rw [show ((d :: t).map digitChar) = digitChar d :: t.map digitChar from rfl]
  rw [dropPfx_no _ _ (isPrefixOf_cons_ne (beq_K_digitChar d hd)),
    dropPfx_no _ _ (isPrefixOf_cons_ne (beq_k_digitChar d hd))]
  rw [show (digitChar d :: t.map digitChar) = (d :: t).map digitChar from rfl]
  rw [trimSp_no _ (mem_digits_notSpace hlt), filter_digits hlt,
    parseFloat_digits (d :: t) hne hlt]

theorem parseAmount_KES (ds : List ℕ) (hne : ds ≠ []) (hlt : ∀ d ∈ ds, d < 10) :
    parseAmount ("KES" ++ digitsStr ds) = .fin ((digitsVal ds : ℕ) : ℚ) := by
  obtain ⟨d, t, rfl⟩ : ∃ d t, ds = d :: t := by
    cases ds with
    | nil => exact absurd rfl hne
    | cons d t => exact ⟨d, t, rfl⟩
  have hd : d < 10 := hlt d (by simp)
  have hdata : ("KES" ++ digitsStr (d :: t)).data =
      'K' :: 'E' :: 'S' :: (d :: t).map digitChar := rfl
  have hsne : ("KES" ++ digitsStr (d :: t)) ≠ "" := by
    intro h
    have := congrArg String.data h
    rw [hdata] at this
    exact absurd this (by simp)
  have hnospace : ∀ c ∈ 'K' :: 'E' :: 'S' :: (d :: t).map digitChar, isSpaceB c = false := by
    intro c hc
    simp only [List.mem_cons] at hc
    rcases hc with rfl | rfl | rfl | hc
    · rfl
    · rfl
    · rfl
    · exact mem_digits_notSpace hlt c hc
  unfold parseAmount
  rw [if_neg hsne, hdata, trimSp_no _ hnospace]
  dsimp only
  rw [dropPfx_no "Ksh".data ('K' :: 'E' :: 'S' :: (d :: t).map digitChar) rfl,
    dropPfx_no "ksh".data ('K' :: 'E' :: 'S' :: (d :: t).map digitChar) rfl]
  rw [show ('K' :: 'E' :: 'S' :: (d :: t).map digitChar) =
    "KES".data ++ (d :: t).map digitChar from rfl, dropPfx_strip]
  rw [show ((d :: t).map digitChar) = digitChar d :: t.map digitChar from rfl]
  rw [dropPfx_no _ _ (isPrefixOf_cons_ne (beq_k_digitChar d hd))]
  rw [show (digitChar d :: t.map digitChar) = (d :: t).map digitChar from rfl]
  rw [trimSp_no _ (mem_digits_notSpace hlt), filter_digits hlt,
    parseFloat_digits (d :: t) hne hlt]

theorem parseAmount_kes (ds : List ℕ) (hne : ds ≠ []) (hlt : ∀ d ∈ ds, d < 10) :
    parseAmount ("kes" ++ digitsStr ds) = .fin ((digitsVal ds : ℕ) : ℚ) := by
  obtain ⟨d, t, rfl⟩ : ∃ d t, ds = d :: t := by
    cases ds with
    | nil => exact absurd rfl hne
    | cons d t => exact ⟨d, t, rfl⟩
  have hd : d < 10 := hlt d (by simp)
  have hdata : ("kes" ++ digitsStr (d :: t)).data =
      'k' :: 'e' :: 's' :: (d :: t).map digitChar := rfl
  have hsne : ("kes" ++ digitsStr (d :: t)) ≠ "" := by
    intro h
    have := congrArg String.data h
    rw [hdata] at this
    exact absurd this (by simp)
  have hnospace : ∀ c ∈ 'k' :: 'e' :: 's' :: (d :: t).map digitChar, isSpaceB c = false := by
    intro c hc
    simp only [List.mem_cons] at hc
    rcases hc with rfl | rfl | rfl | hc
    · rfl
    · rfl
    · rfl
    · exact mem_digits_notSpace hlt c hc
  unfold parseAmount
  rw [if_neg hsne, hdata, trimSp_no _ hnospace]
  dsimp only
  rw [dropPfx_no "Ksh".data ('k' :: 'e' :: 's' :: (d :: t).map digitChar) rfl,
    dropPfx_no "ksh".data ('k' :: 'e' :: 's' :: (d :: t).map digitChar) rfl,
    dropPfx_no "KES".data ('k' :: 'e' :: 's' :: (d :: t).map digitChar) rfl]
  rw [show ('k' :: 'e' :: 's' :: (d :: t).map digitChar) =
    "kes".data ++ (d :: t).map digitChar from rfl, dropPfx_strip]
  rw [trimSp_no _ (mem_digits_notSpace hlt), filter_digits hlt,
    parseFloat_digits (d :: t) hne hlt]

theorem parseAmount_KSH (ds : List ℕ) (hlt : ∀ d ∈ ds, d < 10) :
    parseAmount ("KSH" ++ digitsStr ds) = .fin 0 := by
  have hdata : ("KSH" ++ digitsStr ds).data = 'K' :: 'S' :: 'H' :: ds.map digitChar := rfl
  have hsne : ("KSH" ++ digitsStr ds) ≠ "" := by
    intro h
    have := congrArg String.data h
    rw [hdata] at this
    exact absurd this (by simp)
  have hnospace : ∀ c ∈ 'K' :: 'S' :: 'H' :: ds.map digitChar, isSpaceB c = false := by
    intro c hc
    simp only [List.mem_cons] at hc
    rcases hc with rfl | rfl | rfl | hc
    · rfl
    · rfl
    · rfl
    · exact mem_digits_notSpace hlt c hc
  unfold parseAmount
  rw [if_neg hsne, hdata, trimSp_no _ hnospace]
  dsimp only
  rw [dropPfx_no "Ksh".data ('K' :: 'S' :: 'H' :: ds.map digitChar) rfl,
    dropPfx_no "ksh".data ('K' :: 'S' :: 'H' :: ds.map digitChar) rfl,
    dropPfx_no "KES".data ('K' :: 'S' :: 'H' :: ds.map digitChar) rfl,
    dropPfx_no "kes".data ('K' :: 'S' :: 'H' :: ds.map digitChar) rfl,
    trimSp_no _ hnospace]
  rw [show List.filter (fun c => !c == ',') ('K' :: 'S' :: 'H' :: ds.map digitChar) =
    'K' :: 'S' :: 'H' :: List.filter (fun c => !c == ',') (ds.map digitChar) from rfl]
  rw [filter_digits hlt, parseFloat_K]

theorem parseAmount_KEs (ds : List ℕ) (hlt : ∀ d ∈ ds, d < 10) :
    parseAmount ("KEs" ++ digitsStr ds) = .fin 0 := by
  have hdata : ("KEs" ++ digitsStr ds).data = 'K' :: 'E' :: 's' :: ds.map digitChar := rfl
  have hsne : ("KEs" ++ digitsStr ds) ≠ "" := by
    intro h
    have := congrArg String.data h
    rw [hdata] at this
    exact absurd this (by simp)
  have hnospace : ∀ c ∈ 'K' :: 'E' :: 's' :: ds.map digitChar, isSpaceB c = false := by
    intro c hc
    simp only [List.mem_cons] at hc
    rcases hc with rfl | rfl | rfl | hc
    · rfl
    · rfl
    · rfl
    · exact mem_digits_notSpace hlt c hc
  unfold parseAmount
  rw [if_neg hsne, hdata, trimSp_no _ hnospace]
  dsimp only
  rw [dropPfx_no "Ksh".data ('K' :: 'E' :: 's' :: ds.map digitChar) rfl,
    dropPfx_no "ksh".data ('K' :: 'E' :: 's' :: ds.map digitChar) rfl,
    dropPfx_no "KES".data ('K' :: 'E' :: 's' :: ds.map digitChar) rfl,
    dropPfx_no "kes".data ('K' :: 'E' :: 's' :: ds.map digitChar) rfl,
    trimSp_no _ hnospace]
  rw [show List.filter (fun c => !c == ',') ('K' :: 'E' :: 's' :: ds.map digitChar) =
    'K' :: 'E' :: 's' :: List.filter (fun c => !c == ',') (ds.map digitChar) from rfl]
  rw [filter_digits hlt, parseFloat_K]

/-- C7 counterexample: `parseAmount` is not case-insensitive about the
currency prefix — the claimed casing `KSH` is not stripped (the result is
0), while `Ksh` is. -/
theorem c7_parse_amount_cex :
    parseAmount "KSH100" = .fin 0 ∧ parseAmount "Ksh100" = .fin 100 ∧
    GoFloat.fin 0 ≠ GoFloat.fin 100 := by
  refine ⟨by decide, by decide, by decide⟩

/-- C7 amended: `parseAmount` strips exactly the four literal prefixes
`Ksh`, `ksh`, `KES`, `kes` (tried in that order by `strings.TrimPrefix`),
removes commas and parses the remaining decimal; other casings such as
`KSH` or `KEs` are not stripped, so such strings normalize to 0; invalid
or empty input yields 0 and the function is total (never raises). -/
theorem c7_parse_amount_amended (ds : List ℕ) (hne : ds ≠ [])
    (hlt : ∀ d ∈ ds, d < 10) :
    parseAmount ("Ksh" ++ digitsStr ds) = .fin (digitsVal ds) ∧
    parseAmount ("ksh" ++ digitsStr ds) = .fin (digitsVal ds) ∧
    parseAmount ("KES" ++ digitsStr ds) = .fin (digitsVal ds) ∧
    parseAmount ("kes" ++ digitsStr ds) = .fin (digitsVal ds) ∧
    parseAmount ("KSH" ++ digitsStr ds) = .fin 0 ∧
    parseAmount ("KEs" ++ digitsStr ds) = .fin 0 ∧
    parseAmount "" = .fin 0 ∧
    parseAmount "abc" = .fin 0 ∧
    parseAmount "Ksh1,500.00" = .fin 1500 :=
  ⟨parseAmount_Ksh ds hne hlt, parseAmount_ksh ds hne hlt, parseAmount_KES ds hne hlt,
   parseAmount_kes ds hne hlt, parseAmount_KSH ds hlt, parseAmount_KEs ds hlt,
   rfl, by decide, by decide⟩

/-- Witness for C7 amended at the digit list of 100. -/
theorem c7_parse_amount_amended_witness :
    parseAmount ("Ksh" ++ digitsStr [1, 0, 0]) = .fin (digitsVal [1, 0, 0]) ∧
    parseAmount ("KSH" ++ digitsStr [1, 0, 0]) = .fin 0 :=
  ⟨(c7_parse_amount_amended [1, 0, 0] (by decide) (by decide)).1,
   (c7_parse_amount_amended [1, 0, 0] (by decide) (by decide)).2.2.2.2.1⟩

/-! ### Finiteness of the feature vector (claim C8) -/

theorem isFin_add {x y : GoFloat} (hx : x.isFin = true) (hy : y.isFin = true) :
    (GoFloat.add x y).isFin = true := by
  cases x <;> cases y <;> simp_all [GoFloat.add, GoFloat.isFin]

theorem isFin_neg {x : GoFloat} (hx : x.isFin = true) : (GoFloat.neg x).isFin = true := by
  cases x <;> simp_all [GoFloat.neg, GoFloat.isFin]

theorem isFin_sub {x y : GoFloat} (hx : x.isFin = true) (hy : y.isFin = true) :
    (GoFloat.sub x y).isFin = true :=
  isFin_add hx (isFin_neg hy)

theorem isFin_mul {x y : GoFloat} (hx : x.isFin = true) (hy : y.isFin = true) :
    (GoFloat.mul x y).isFin = true := by
  cases x <;> cases y <;> simp_all [GoFloat.mul, GoFloat.isFin]

theorem isFin_ex {x : GoFloat} (hx : x.isFin = true) : ∃ a : ℚ, x = .fin a := by
  cases x with
  | fin a => exact ⟨a, rfl⟩
  | inf => simp [GoFloat.isFin] at hx
  | ninf => simp [GoFloat.isFin] at hx
  | nan => simp [GoFloat.isFin] at hx

theorem isFin_minF {x y : GoFloat} (hx : x.isFin = true) (hy : y.isFin = true) :
    (GoFloat.minF x y).isFin = true := by
  obtain ⟨a, rfl⟩ := isFin_ex hx
  obtain ⟨b, rfl⟩ := isFin_ex hy
  unfold GoFloat.minF
  split
  · simp_all
  · simp_all
  · split <;> rfl

theorem isFin_safeDiv {x y : GoFloat} (hx : x.isFin = true) (hy : y.isFin = true) :
    (safeDiv x y).isFin = true := by
  obtain ⟨a, rfl⟩ := isFin_ex hx
  obtain ⟨b, rfl⟩ := isFin_ex hy
  unfold safeDiv
  by_cases hb : b = 0
  · simp [GoFloat.beq, hb, GoFloat.isFin]
  · simp [GoFloat.beq, hb, GoFloat.div, GoFloat.isFin]

theorem safeDiv_zero (x : GoFloat) : safeDiv x (.fin 0) = .fin 0 := by
  simp [safeDiv, GoFloat.beq]

theorem isFin_sumF {l : List GoFloat} (h : ∀ x ∈ l, x.isFin = true) :
    (sumF l).isFin = true := by
  suffices hs : ∀ a : GoFloat, a.isFin = true → (l.foldl GoFloat.add a).isFin = true from
    hs (.fin 0) rfl
  induction l with
  | nil => intro a ha; exact ha
  | cons x t ih =>
    intro a ha
    exact ih (fun y hy => h y (by simp [hy])) _ (isFin_add ha (h x (by simp)))

theorem isFin_meanF {l : List GoFloat} (h : ∀ x ∈ l, x.isFin = true) :
    (meanF l).isFin = true := by
  unfold meanF
  by_cases hl : l.isEmpty
  · simp [hl, GoFloat.isFin]
  · obtain ⟨s, hs⟩ := isFin_ex (isFin_sumF h)
    have hlen : (l.length : ℚ) ≠ 0 := by
      simp only [List.isEmpty_iff] at hl
      exact_mod_cast fun hc => hl (List.length_eq_zero.mp (by exact_mod_cast hc))
    simp [hl, hs, GoFloat.div, hlen, GoFloat.isFin]

theorem sumSquares_fin {m : GoFloat} (hm : m.isFin = true) :
    ∀ (l : List GoFloat), (∀ x ∈ l, x.isFin = true) → ∀ (p : ℚ), 0 ≤ p →
    ∃ q : ℚ, 0 ≤ q ∧
      (l.foldl (fun acc v => GoFloat.add acc (GoFloat.mul (GoFloat.sub v m) (GoFloat.sub v m)))
        (.fin p)) = .fin q := by
  obtain ⟨c, rfl⟩ := isFin_ex hm
  intro l
  induction l with
  | nil => intro h p hp; exact ⟨p, hp, rfl⟩
  | cons x t ih =>
    intro h p hp
    obtain ⟨b, rfl⟩ := isFin_ex (h x (by simp))
    have hstep : GoFloat.add (.fin p) (GoFloat.mul (GoFloat.sub (.fin b) (.fin c))
        (GoFloat.sub (.fin b) (.fin c))) = .fin (p + (b + -c) * (b + -c)) := rfl
    have hsq : (0 : ℚ) ≤ (b + -c) * (b + -c) := mul_self_nonneg _
    simp only [List.foldl_cons, hstep]
    exact ih (fun y hy => h y (by simp [hy])) _ (by linarith)

theorem isFin_stdDevF {l : List GoFloat} (h : ∀ x ∈ l, x.isFin = true) :
    (stdDevF l).isFin = true := by
  unfold stdDevF
  by_cases hl : l.isEmpty
  · simp [hl, GoFloat.isFin]
  · obtain ⟨q, hq, hss⟩ := sumSquares_fin (isFin_meanF h) l h 0 (le_refl 0)
    have hlen : (0 : ℚ) < (l.length : ℚ) := by
      simp only [List.isEmpty_iff] at hl
      exact_mod_cast Nat.pos_of_ne_zero (fun hc => hl (List.length_eq_zero.mp hc))
    have hdiv : GoFloat.div (.fin q) (.fin (l.length : ℚ)) = .fin (q / l.length) := by
      simp [GoFloat.div, ne_of_gt hlen]
    have hnn : ¬ (q / (l.length : ℚ) < 0) := not_lt.mpr (by positivity)
    simp [hl, hss, hdiv, GoFloat.sqrtF, hnn, GoFloat.isFin]

theorem isFin_covF {l : List GoFloat} (h : ∀ x ∈ l, x.isFin = true) :
    (covF l).isFin = true := by
  unfold covF
  by_cases hl : l.isEmpty
  · simp [hl, GoFloat.isFin]
  · obtain ⟨m, hmv⟩ := isFin_ex (isFin_meanF h)
    by_cases hm : m = 0
    · simp [hl, hmv, hm, GoFloat.beq, GoFloat.isFin]
    · obtain ⟨s, hsv⟩ := isFin_ex (isFin_stdDevF h)
      simp [hl, hmv, hm, GoFloat.beq, hsv, GoFloat.div, GoFloat.isFin]

/-- Finiteness invariant of the accumulator record. -/
def VAccFin (a : VAcc) : Prop :=
  a.totalIncome.isFin = true ∧ a.totalExpenses.isFin = true ∧
  a.gamblingSpend.isFin = true ∧ a.utilitySpend.isFin = true ∧
  a.fulizaBorrowed.isFin = true ∧ a.fulizaRepaid.isFin = true ∧
  a.p2pSends.isFin = true ∧ a.maxTxn.isFin = true ∧
  a.hustlerBalance.isFin = true ∧ a.okoaCount.isFin = true ∧
  a.airtelVolume.isFin = true ∧ a.mmfDeposits.isFin = true ∧
  a.bankTxnCount.isFin = true ∧ a.okoaAmount.isFin = true ∧
  (∀ x ∈ a.amounts, x.isFin = true) ∧ (∀ x ∈ a.incomeAmounts, x.isFin = true)

theorem vAccFin_init : VAccFin {} := by
  refine ⟨rfl, rfl, rfl, rfl, rfl, rfl, rfl, rfl, rfl, rfl, rfl, rfl, rfl, rfl, ?_, ?_⟩ <;>
    intro x hx <;> simp [VAcc] at hx

theorem vecStep_fin {a : VAcc} {t : Transaction} (ha : VAccFin a)
    (ht : t.amount.isFin = true) (hb : t.balance.isFin = true) :
    VAccFin (vecStep a t) := by
  obtain ⟨h1, h2, h3, h4, h5, h6, h7, h8, h9, h10, h11, h12, h13, h14, h15, h16⟩ := ha
  have hamts : ∀ x ∈ a.amounts ++ [t.amount], x.isFin = true := by
    intro x hx
    rcases List.mem_append.mp hx with hx | hx
    · exact h15 x hx
    · simp at hx; subst hx; exact ht
  have hinc : ∀ x ∈ a.incomeAmounts ++ [t.amount], x.isFin = true := by
    intro x hx
    rcases List.mem_append.mp hx with hx | hx
    · exact h16 x hx
    · simp at hx; subst hx; exact ht
  unfold vecStep
  cases htt : t.type <;>
    simp only [htt] <;>
    split_ifs <;>
    refine ⟨?_, ?_, ?_, ?_, ?_, ?_, ?_, ?_, ?_, ?_, ?_, ?_, ?_, ?_, ?_, ?_⟩ <;>
    first
      | assumption
      | exact ht
      | exact hb
      | exact hamts
      | exact hinc
      | exact isFin_add h1 ht
      | exact isFin_add h2 ht
      | exact isFin_add h3 ht
      | exact isFin_add h4 (isFin_mul ht rfl)
      | exact isFin_add h5 ht
      | exact isFin_add h6 ht
      | exact isFin_add h7 ht
      | exact isFin_add h10 rfl
      | exact isFin_add h11 ht
      | exact isFin_add h12 ht
      | exact isFin_add h13 rfl
      | exact isFin_add h14 ht

theorem vecAccums_fin (txns : List Transaction)
    (hfin : ∀ t ∈ txns, t.amount.isFin = true ∧ t.balance.isFin = true) :
    VAccFin (vecAccums txns) := by
  unfold vecAccums
  suffices h : ∀ a : VAcc, VAccFin a → VAccFin (txns.foldl vecStep a) from h {} vAccFin_init
  induction txns with
  | nil => intro a ha; exact ha
  | cons t rest ih =>
    intro a ha
    exact ih (fun x hx => hfin x (by simp [hx])) _
      (vecStep_fin ha (hfin t (by simp)).1 (hfin t (by simp)).2)

theorem covF_zero_mean {l : List GoFloat} (h : meanF l = .fin 0) : covF l = .fin 0 := by
  unfold covF
  by_cases hl : l.isEmpty
  · simp [hl]
  · simp [hl, h, GoFloat.beq]

/-- C8: for every transaction list with finite amounts and balances (the
shape of every parser-produced transaction), no feature of `Vectorize` is
NaN or infinite, and each ratio feature whose denominator is zero — total
expenses (features 6, 7, 10), total income (8, 19, 20), Fuliza borrowed
(9), income mean (5) and the days-active proxy (14) — is exactly 0. -/
theorem c8_guarded_division (txns : List Transaction)
    (hfin : ∀ t ∈ txns, t.amount.isFin = true ∧ t.balance.isFin = true) :
    (∀ f ∈ Vectorize txns, f.isFin = true) ∧
    ((vecAccums txns).totalExpenses = .fin 0 →
      (Vectorize txns).getD 6 GoFloat.nan = .fin 0 ∧
      (Vectorize txns).getD 7 GoFloat.nan = .fin 0 ∧
      (Vectorize txns).getD 10 GoFloat.nan = .fin 0) ∧
    ((vecAccums txns).totalIncome = .fin 0 →
      (Vectorize txns).getD 8 GoFloat.nan = .fin 0 ∧
      (Vectorize txns).getD 19 GoFloat.nan = .fin 0 ∧
      (Vectorize txns).getD 20 GoFloat.nan = .fin 0) ∧
    ((vecAccums txns).fulizaBorrowed = .fin 0 →
      (Vectorize txns).getD 9 GoFloat.nan = .fin 0) ∧
    (meanF (vecAccums txns).incomeAmounts = .fin 0 →
      (Vectorize txns).getD 5 GoFloat.nan = .fin 0) ∧
    ((Vectorize txns).getD 13 GoFloat.nan = .fin 0 →
      (Vectorize txns).getD 14 GoFloat.nan = .fin 0) := by
  by_cases h0 : txns.isEmpty
  · have hv : Vectorize txns = List.replicate 22 (.fin 0) := by simp [Vectorize, h0]
    rw [hv]
    exact ⟨fun f hf => by rw [List.eq_of_mem_replicate hf]; rfl,
      fun _ => ⟨rfl, rfl, rfl⟩, fun _ => ⟨rfl, rfl, rfl⟩, fun _ => rfl, fun _ => rfl,
      fun _ => rfl⟩
  · obtain ⟨hA1, hA2, hA3, hA4, hA5, hA6, hA7, hA8, hA9, hA10, hA11, hA12, hA13, hA14,
      hA15, hA16⟩ := vecAccums_fin txns hfin
    have hv : Vectorize txns =
      [(vecAccums txns).totalIncome,
       (vecAccums txns).totalExpenses,
       GoFloat.sub (vecAccums txns).totalIncome (vecAccums txns).totalExpenses,
       safeDiv (sumF (vecAccums txns).amounts) (.fin (vecAccums txns).amounts.length),
       .fin txns.length,
       covF (vecAccums txns).incomeAmounts,
       safeDiv (vecAccums txns).gamblingSpend (vecAccums txns).totalExpenses,
       safeDiv (vecAccums txns).utilitySpend (vecAccums txns).totalExpenses,
       safeDiv (vecAccums txns).fulizaBorrowed (vecAccums txns).totalIncome,
       safeDiv (vecAccums txns).fulizaRepaid (vecAccums txns).fulizaBorrowed,
       safeDiv (vecAccums txns).p2pSends (vecAccums txns).totalExpenses,
       (vecAccums txns).maxTxn,
       stdDevF (vecAccums txns).amounts,
       GoFloat.minF (.fin txns.length) (.fin 30),
       safeDiv (sumF (vecAccums txns).amounts) (GoFloat.minF (.fin txns.length) (.fin 30)),
       (vecAccums txns).hustlerBalance,
       (vecAccums txns).okoaCount,
       (vecAccums txns).airtelVolume,
       .fin (vecAccums txns).lenders.length,
       safeDiv (GoFloat.add (vecAccums txns).okoaAmount (vecAccums txns).fulizaBorrowed)
         (vecAccums txns).totalIncome,
       safeDiv (vecAccums txns).mmfDeposits (vecAccums txns).totalIncome,
       (vecAccums txns).bankTxnCount] := by
      simp [Vectorize, h0]
    refine ⟨?_, ?_, ?_, ?_, ?_, ?_⟩
    · intro f hf
      rw [hv] at hf
      simp only [List.mem_cons, List.not_mem_nil, or_false] at hf
      rcases hf with rfl | rfl | rfl | rfl | rfl | rfl | rfl | rfl | rfl | rfl | rfl | rfl |
        rfl | rfl | rfl | rfl | rfl | rfl | rfl | rfl | rfl | rfl <;>
        first
          | assumption
          | rfl
          | exact isFin_sub hA1 hA2
          | exact isFin_safeDiv (isFin_sumF hA15) rfl
          | exact isFin_covF hA16
          | exact isFin_safeDiv hA3 hA2
          | exact isFin_safeDiv hA4 hA2
          | exact isFin_safeDiv hA5 hA1
          | exact isFin_safeDiv hA6 hA5
          | exact isFin_safeDiv hA7 hA2
          | exact isFin_stdDevF hA15
          | exact isFin_minF rfl rfl
          | exact isFin_safeDiv (isFin_sumF hA15) (isFin_minF rfl rfl)
          | exact isFin_safeDiv (isFin_add hA14 hA5) hA1
          | exact isFin_safeDiv hA12 hA1
    · intro hz
      rw [hv]
      refine ⟨?_, ?_, ?_⟩
      · show safeDiv (vecAccums txns).gamblingSpend (vecAccums txns).totalExpenses = .fin 0
        rw [hz, safeDiv_zero]
      · show safeDiv (vecAccums txns).utilitySpend (vecAccums txns).totalExpenses = .fin 0
        rw [hz, safeDiv_zero]
      · show safeDiv (vecAccums txns).p2pSends (vecAccums txns).totalExpenses = .fin 0
        rw [hz, safeDiv_zero]
    · intro hz
      rw [hv]
      refine ⟨?_, ?_, ?_⟩
      · show safeDiv (vecAccums txns).fulizaBorrowed (vecAccums txns).totalIncome = .fin 0
        rw [hz, safeDiv_zero]
      · show safeDiv (GoFloat.add (vecAccums txns).okoaAmount (vecAccums txns).fulizaBorrowed)
          (vecAccums txns).totalIncome = .fin 0
        rw [hz, safeDiv_zero]
      · show safeDiv (vecAccums txns).mmfDeposits (vecAccums txns).totalIncome = .fin 0
        rw [hz, safeDiv_zero]
    · intro hz
      rw [hv]
      show safeDiv (vecAccums txns).fulizaRepaid (vecAccums txns).fulizaBorrowed = .fin 0
      rw [hz, safeDiv_zero]
    · intro hz
      rw [hv]
      show covF (vecAccums txns).incomeAmounts = .fin 0
      exact covF_zero_mean hz
    · intro hz
      rw [hv] at hz ⊢
      have hz2 : GoFloat.minF (.fin txns.length) (.fin 30) = .fin 0 := hz
      show safeDiv (sumF (vecAccums txns).amounts)
        (GoFloat.minF (.fin txns.length) (.fin 30)) = .fin 0
      rw [hz2, safeDiv_zero]

/-- Witness for C8 at the empty transaction list. -/
theorem c8_guarded_division_witness :
    (∀ f ∈ Vectorize [], f.isFin = true) ∧
    (Vectorize []).getD 6 GoFloat.nan = .fin 0 :=
  ⟨(c8_guarded_division [] (by simp)).1,
   ((c8_guarded_division [] (by simp)).2.1 rfl).1⟩

/-! ### C9: invariants of the parsed batch

The capture at group index 0 of every amount-bearing pattern consists only
of digits, commas and dots; `parseAmount` maps such strings to a
non-negative finite value.  The chain below proves this syntactically
(`groupsAmt`, checked by `decide` per pattern), carries it through the
backtracking matcher (`reMatch_groupsAmt`), and then through each
sub-parser to `ParseLogs`. -/

theorem charToNat_inj {a b : Char} (h : a.toNat = b.toNat) : a = b :=
  Char.eq_of_val_eq (UInt32.ext h)

theorem ule_toNat {a b : UInt32} : (a ≤ b) ↔ a.toNat ≤ b.toNat := by
  rw [UInt32.le_def, BitVec.le_def]
  rfl

theorem char_isDigit_iff {c : Char} : c.isDigit = true ↔ 48 ≤ c.toNat ∧ c.toNat ≤ 57 := by
  simp only [Char.isDigit, Bool.and_eq_true, decide_eq_true_eq, ge_iff_le, ule_toNat]
  constructor
  · rintro ⟨h1, h2⟩
    constructor
    · simpa using h1
    · simpa using h2
  · rintro ⟨h1, h2⟩
    constructor
    · simpa using h1
    · simpa using h2

theorem char_toNat_ofNat {n : ℕ} (h : n < 55296) : (Char.ofNat n).toNat = n := by
  have hv : n.isValidChar := Or.inl h
  rw [Char.ofNat, dif_pos hv]
  simp [Char.ofNatAux, Char.toNat, UInt32.toNat]

theorem toUpper_toNat (c : Char) :
    (Char.toUpper c).toNat =
      if 97 ≤ c.toNat ∧ c.toNat ≤ 122 then c.toNat - 32 else c.toNat := by
  show (if c.toNat ≥ 97 ∧ c.toNat ≤ 122 then Char.ofNat (c.toNat - 32) else c).toNat = _
  by_cases h : 97 ≤ c.toNat ∧ c.toNat ≤ 122
  · rw [if_pos h, if_pos h]
    exact char_toNat_ofNat (by omega)
  · rw [if_neg h, if_neg h]

theorem toLower_toNat (c : Char) :
    (Char.toLower c).toNat =
      if 65 ≤ c.toNat ∧ c.toNat ≤ 90 then c.toNat + 32 else c.toNat := by
  show (if c.toNat ≥ 65 ∧ c.toNat ≤ 90 then Char.ofNat (c.toNat + 32) else c).toNat = _
  by_cases h : 65 ≤ c.toNat ∧ c.toNat ≤ 90
  · rw [if_pos h, if_pos h]
    exact char_toNat_ofNat (by omega)
  · rw [if_neg h, if_neg h]

theorem char_beq_iff {a b : Char} : (a == b) = true ↔ a.toNat = b.toNat := by
  constructor
  · intro h
    rw [beq_iff_eq.mp h]
  · intro h
    exact beq_iff_eq.mpr (charToNat_inj h)

theorem isDigit_toUpper {c : Char} (h : c.toUpper.isDigit = true) : c.isDigit = true := by
  rw [char_isDigit_iff] at h ⊢
  rw [toUpper_toNat] at h
  split at h <;> omega

theorem isDigit_toLower {c : Char} (h : c.toLower.isDigit = true) : c.isDigit = true := by
  rw [char_isDigit_iff] at h ⊢
  rw [toLower_toNat] at h
  split at h <;> omega

theorem beq_comma_toUpper {c : Char} (h : (c.toUpper == ',') = true) : (c == ',') = true := by
  rw [char_beq_iff] at h ⊢
  rw [toUpper_toNat, show (',' : Char).toNat = 44 from rfl] at h
  rw [show (',' : Char).toNat = 44 from rfl]
  revert h
  split <;> (intro h; omega)

theorem beq_comma_toLower {c : Char} (h : (c.toLower == ',') = true) : (c == ',') = true := by
  rw [char_beq_iff] at h ⊢
  rw [toLower_toNat, show (',' : Char).toNat = 44 from rfl] at h
  rw [show (',' : Char).toNat = 44 from rfl]
  revert h
  split <;> (intro h; omega)

/-- Membership of the `[\d,]` class under case folding only produces
digits and commas. -/
theorem ccAmtHead_amtChar {ci : Bool} {c : Char} (h : ccMemCI ci ccAmtHead c = true) :
    amtChar c = true := by
  have base : ∀ x : Char, ccMem ccAmtHead x = true → (x.isDigit || (x == ',')) = true := by
    intro x hx
    simpa [ccMem, ccAmtHead, List.any, CSpec.memB] using hx
  unfold amtChar
  unfold ccMemCI at h
  rcases hci : ci with _ | _
  · rw [hci] at h
    have := base c h
    rcases Bool.or_eq_true _ _ |>.mp this with hd | hc
    · simp [hd]
    · simp [hc]
  · rw [hci] at h
    simp only [if_pos rfl] at h
    rcases Bool.or_eq_true _ _ |>.mp h with h1 | h3
    · rcases Bool.or_eq_true _ _ |>.mp h1 with h1 | h2
      · rcases Bool.or_eq_true _ _ |>.mp (base c h1) with hd | hc
        · simp [hd]
        · simp [hc]
      · rcases Bool.or_eq_true _ _ |>.mp (base c.toUpper h2) with hd | hc
        · simp [isDigit_toUpper hd]
        · simp [beq_comma_toUpper hc]
    · rcases Bool.or_eq_true _ _ |>.mp (base c.toLower h3) with hd | hc
      · simp [isDigit_toLower hd]
      · simp [beq_comma_toLower hc]

/-- Membership of the `\d` class under case folding only produces
digits. -/
theorem ccDigits_amtChar {ci : Bool} {c : Char} (h : ccMemCI ci ccDigits c = true) :
    amtChar c = true := by
  have base : ∀ x : Char, ccMem ccDigits x = true → x.isDigit = true := by
    intro x hx
    simpa [ccMem, ccDigits, List.any, CSpec.memB] using hx
  unfold amtChar
  unfold ccMemCI at h
  rcases hci : ci with _ | _
  · rw [hci] at h
    simp [base c h]
  · rw [hci] at h
    simp only [if_pos rfl] at h
    rcases Bool.or_eq_true _ _ |>.mp h with h1 | h3
    · rcases Bool.or_eq_true _ _ |>.mp h1 with h1 | h2
      · simp [base c h1]
      · simp [isDigit_toUpper (base c.toUpper h2)]
    · simp [isDigit_toLower (base c.toLower h3)]

/-- A character the literal `.` matches under case folding is `.`. -/
theorem lit_dot_amtChar {ci : Bool} {c : Char} (h : charEqCI ci '.' c = true) :
    amtChar c = true := by
  unfold charEqCI at h
  rcases hci : ci with _ | _
  · rw [hci] at h
    rw [if_neg Bool.false_ne_true] at h
    rw [← beq_iff_eq.mp h]
    decide
  · rw [hci] at h
    simp only [if_pos rfl] at h
    have h2 : ('.' : Char).toUpper.toNat = c.toUpper.toNat := by
      rw [char_beq_iff.mp h]
    rw [show ('.' : Char).toUpper.toNat = 46 from rfl, toUpper_toNat] at h2
    have hc : c.toNat = 46 := by
      revert h2
      split <;> (intro h2; omega)
    have : c = '.' := charToNat_inj (by rw [hc]; rfl)
    rw [this]
    decide

/-- The suffix `s2` arises from `s1` by consuming a prefix of characters
that satisfy `P`. -/
def Consumed (P : Char → Prop) (s1 s2 : List Char) : Prop :=
  ∃ n, n ≤ s1.length ∧ s2 = s1.drop n ∧ ∀ c ∈ s1.take n, P c

theorem consumed_refl (P : Char → Prop) (s : List Char) : Consumed P s s :=
  ⟨0, by simp, by simp, by simp⟩

theorem consumed_cons {P : Char → Prop} {c : Char} {s s' : List Char}
    (hc : P c) (h : Consumed P s s') : Consumed P (c :: s) s' := by
  obtain ⟨n, hn, rfl, hp⟩ := h
  refine ⟨n + 1, by simpa using Nat.succ_le_succ hn, rfl, ?_⟩
  intro x hx
  simp only [List.take_succ_cons, List.mem_cons] at hx
  rcases hx with rfl | hx
  · exact hc
  · exact hp x hx

theorem consumed_trans {P : Char → Prop} {s1 s2 s3 : List Char}
    (h1 : Consumed P s1 s2) (h2 : Consumed P s2 s3) : Consumed P s1 s3 := by
  obtain ⟨n, hn, rfl, hpn⟩ := h1
  obtain ⟨m, hm, rfl, hpm⟩ := h2
  rw [List.length_drop] at hm
  refine ⟨n + m, by omega, ?_, ?_⟩
  · rw [List.drop_drop, Nat.add_comm]
  · intro c hc
    rw [List.take_add] at hc
    rcases List.mem_append.mp hc with hc | hc
    · exact hpn c hc
    · exact hpm c hc

theorem starCls_sound {α} {ci : Bool} {cc : CC} {P : Char → Prop}
    (hP : ∀ c, ccMemCI ci cc c = true → P c) :
    ∀ (s : List Char) (k : List Char → Option α) (out : α),
    starCls ci cc s k = some out → ∃ s', Consumed P s s' ∧ k s' = some out := by
  intro s
  induction s with
  | nil => intro k out h; exact ⟨[], consumed_refl P [], h⟩
  | cons c t ih =>
    intro k out h
    unfold starCls at h
    by_cases hmem : ccMemCI ci cc c = true
    · rw [if_pos hmem] at h
      cases hsc : starCls ci cc t k with
      | some r =>
        rw [hsc] at h
        obtain ⟨s', hcons, hk⟩ := ih k r hsc
        cases h
        exact ⟨s', consumed_cons (hP c hmem) hcons, hk⟩
      | none =>
        rw [hsc] at h
        exact ⟨c :: t, consumed_refl P (c :: t), h⟩
    · rw [if_neg hmem] at h
      exact ⟨c :: t, consumed_refl P (c :: t), h⟩

theorem reMatch_cls_sound {α} {ci : Bool} {cc : CC} {P : Char → Prop}
    (hP : ∀ c, ccMemCI ci cc c = true → P c)
    {s : List Char} {caps : Caps} {k : List Char → Caps → Option α} {out : α}
    (h : reMatch ci (.cls cc) s caps k = some out) :
    ∃ s', Consumed P s s' ∧ k s' caps = some out := by
  cases s with
  | nil => simp [reMatch] at h
  | cons c rest =>
    simp only [reMatch] at h
    by_cases hmem : ccMemCI ci cc c = true
    · rw [if_pos hmem] at h
      exact ⟨rest, consumed_cons (hP c hmem) (consumed_refl P rest), h⟩
    · rw [if_neg hmem] at h
      exact absurd h (by simp)

theorem reMatch_starC_sound {α} {ci : Bool} {cc : CC} {P : Char → Prop}
    (hP : ∀ c, ccMemCI ci cc c = true → P c)
    {s : List Char} {caps : Caps} {k : List Char → Caps → Option α} {out : α}
    (h : reMatch ci (.starC cc) s caps k = some out) :
    ∃ s', Consumed P s s' ∧ k s' caps = some out := by
  simp only [reMatch] at h
  obtain ⟨s', hcons, hk⟩ := starCls_sound hP s _ out h
  exact ⟨s', hcons, hk⟩

theorem reMatch_optDot_sound {α} {ci : Bool}
    {s : List Char} {caps : Caps} {k : List Char → Caps → Option α} {out : α}
    (h : reMatch ci (.opt (.lit '.')) s caps k = some out) :
    ∃ s', Consumed (fun c => amtChar c = true) s s' ∧ k s' caps = some out := by
  simp only [reMatch] at h
  cases s with
  | nil =>
    simp only [] at h
    exact ⟨[], consumed_refl _ [], h⟩
  | cons c rest =>
    dsimp only at h
    by_cases hc : charEqCI ci '.' c = true
    · rw [if_pos hc] at h
      cases hk : k rest caps with
      | some r =>
        rw [hk] at h
        cases h
        exact ⟨rest, consumed_cons (lit_dot_amtChar hc) (consumed_refl _ rest), hk⟩
      | none =>
        rw [hk] at h
        dsimp only at h
        exact ⟨c :: rest, consumed_refl _ _, h⟩
    · rw [if_neg hc] at h
      cases hk : k (c :: rest) caps with
      | some r => rw [hk] at h; cases h; exact ⟨c :: rest, consumed_refl _ _, hk⟩
      | none => rw [hk] at h; exact absurd h (by simp)

theorem amtBody_consumed {α} (ci : Bool) (s : List Char) (caps : Caps)
    (k : List Char → Caps → Option α) (out : α)
    (h : reMatch ci amtBody s caps k = some out) :
    ∃ s', Consumed (fun c => amtChar c = true) s s' ∧ k s' caps = some out := by
  have h1 : reMatch ci (.cls ccAmtHead) s caps
      (fun sa ca => reMatch ci (.seq (.starC ccAmtHead) (.seq dotOpt (.starC ccDigits)))
        sa ca k) = some out := h
  obtain ⟨s1, hc1, hk1⟩ := reMatch_cls_sound (fun c => ccAmtHead_amtChar) h1
  have h2 : reMatch ci (.starC ccAmtHead) s1 caps
      (fun sa ca => reMatch ci (.seq dotOpt (.starC ccDigits)) sa ca k) = some out := hk1
  obtain ⟨s2, hc2, hk2⟩ := reMatch_starC_sound (fun c => ccAmtHead_amtChar) h2
  have h3 : reMatch ci (.opt (.lit '.')) s2 caps
      (fun sa ca => reMatch ci (.starC ccDigits) sa ca k) = some out := hk2
  obtain ⟨s3, hc3, hk3⟩ := reMatch_optDot_sound h3
  have h4 : reMatch ci (.starC ccDigits) s3 caps k = some out := hk3
  obtain ⟨s4, hc4, hk4⟩ := reMatch_starC_sound (fun c => ccDigits_amtChar) h4
  exact ⟨s4, consumed_trans (consumed_trans (consumed_trans hc1 hc2) hc3) hc4, hk4⟩

theorem reMatch_noG0 {α} (ci : Bool) :
    ∀ (r : RE), noG0 r = true →
    ∀ (s : List Char) (caps : Caps) (k : List Char → Caps → Option α) (out : α),
    reMatch ci r s caps k = some out →
    ∃ s1 caps1, (Caps0OK caps → Caps0OK caps1) ∧ k s1 caps1 = some out := by
  intro r
  induction r with
  | eps => intro _ s caps k out h; exact ⟨s, caps, id, h⟩
  | lit c =>
    intro _ s caps k out h
    cases s with
    | nil => simp [reMatch] at h
    | cons c' rest =>
      simp only [reMatch] at h
      by_cases hc : charEqCI ci c c' = true
      · rw [if_pos hc] at h; exact ⟨rest, caps, id, h⟩
      · rw [if_neg hc] at h; exact absurd h (by simp)
  | cls cc =>
    intro _ s caps k out h
    cases s with
    | nil => simp [reMatch] at h
    | cons c' rest =>
      simp only [reMatch] at h
      by_cases hc : ccMemCI ci cc c' = true
      · rw [if_pos hc] at h; exact ⟨rest, caps, id, h⟩
      · rw [if_neg hc] at h; exact absurd h (by simp)
  | seq r1 r2 ih1 ih2 =>
    intro hg s caps k out h
    have hg12 := Bool.and_eq_true _ _ |>.mp (by simpa [noG0] using hg)
    have h1 : reMatch ci r1 s caps (fun s1 c1 => reMatch ci r2 s1 c1 k) = some out := h
    obtain ⟨s1, caps1, hp1, hk1⟩ := ih1 hg12.1 s caps _ out h1
    obtain ⟨s2, caps2, hp2, hk2⟩ := ih2 hg12.2 s1 caps1 k out hk1
    exact ⟨s2, caps2, fun hc => hp2 (hp1 hc), hk2⟩
  | alt r1 r2 ih1 ih2 =>
    intro hg s caps k out h
    have hg12 := Bool.and_eq_true _ _ |>.mp (by simpa [noG0] using hg)
    simp only [reMatch] at h
    cases hm : reMatch ci r1 s caps k with
    | some r => rw [hm] at h; cases h; exact ih1 hg12.1 s caps k _ hm
    | none => rw [hm] at h; exact ih2 hg12.2 s caps k out h
  | opt r ih =>
    intro hg s caps k out h
    simp only [reMatch] at h
    cases hm : reMatch ci r s caps k with
    | some res => rw [hm] at h; cases h; exact ih (by simpa [noG0] using hg) s caps k _ hm
    | none => rw [hm] at h; exact ⟨s, caps, id, h⟩
  | starC cc =>
    intro _ s caps k out h
    simp only [reMatch] at h
    obtain ⟨s', _, hk⟩ := starCls_sound (P := fun _ => True) (fun _ _ => trivial) s _ out h
    exact ⟨s', caps, id, hk⟩
  | grp i r ih =>
    intro hg s caps k out h
    have hg2 : ¬ i = 0 ∧ noG0 r = true := by simpa [noG0] using hg
    have h1 : reMatch ci r s caps
        (fun s1 c1 => k s1 ((i, s.take (s.length - s1.length)) :: c1)) = some out := h
    obtain ⟨s1, caps1, hp, hk1⟩ := ih hg2.2 s caps _ out h1
    refine ⟨s1, (i, s.take (s.length - s1.length)) :: caps1, ?_, hk1⟩
    intro hc e he h0
    rcases List.mem_cons.mp he with rfl | he
    · exact absurd h0 (by simpa using hg2.1)
    · exact hp hc e he h0

theorem reMatch_groupsAmt {α} (ci : Bool) :
    ∀ (r : RE), groupsAmt r = true →
    ∀ (s : List Char) (caps : Caps) (k : List Char → Caps → Option α) (out : α),
    reMatch ci r s caps k = some out →
    ∃ s1 caps1, (Caps0OK caps → Caps0OK caps1) ∧ k s1 caps1 = some out := by
  intro r
  induction r with
  | eps => intro _ s caps k out h; exact ⟨s, caps, id, h⟩
  | lit c =>
    intro _ s caps k out h
    cases s with
    | nil => simp [reMatch] at h
    | cons c' rest =>
      simp only [reMatch] at h
      by_cases hc : charEqCI ci c c' = true
      · rw [if_pos hc] at h; exact ⟨rest, caps, id, h⟩
      · rw [if_neg hc] at h; exact absurd h (by simp)
  | cls cc =>
    intro _ s caps k out h
    cases s with
    | nil => simp [reMatch] at h
    | cons c' rest =>
      simp only [reMatch] at h
      by_cases hc : ccMemCI ci cc c' = true
      · rw [if_pos hc] at h; exact ⟨rest, caps, id, h⟩
      · rw [if_neg hc] at h; exact absurd h (by simp)
  | seq r1 r2 ih1 ih2 =>
    intro hg s caps k out h
    have hg12 := Bool.and_eq_true _ _ |>.mp (by simpa [groupsAmt] using hg)
    have h1 : reMatch ci r1 s caps (fun s1 c1 => reMatch ci r2 s1 c1 k) = some out := h
    obtain ⟨s1, caps1, hp1, hk1⟩ := ih1 hg12.1 s caps _ out h1
    obtain ⟨s2, caps2, hp2, hk2⟩ := ih2 hg12.2 s1 caps1 k out hk1
    exact ⟨s2, caps2, fun hc => hp2 (hp1 hc), hk2⟩
  | alt r1 r2 ih1 ih2 =>
    intro hg s caps k out h
    have hg12 := Bool.and_eq_true _ _ |>.mp (by simpa [groupsAmt] using hg)
    simp only [reMatch] at h
    cases hm : reMatch ci r1 s caps k with
    | some r => rw [hm] at h; cases h; exact ih1 hg12.1 s caps k _ hm
    | none => rw [hm] at h; exact ih2 hg12.2 s caps k out h
  | opt r ih =>
    intro hg s caps k out h
    simp only [reMatch] at h
    cases hm : reMatch ci r s caps k with
    | some res => rw [hm] at h; cases h; exact ih (by simpa [groupsAmt] using hg) s caps k _ hm
    | none => rw [hm] at h; exact ⟨s, caps, id, h⟩
  | starC cc =>
    intro _ s caps k out h
    simp only [reMatch] at h
    obtain ⟨s', _, hk⟩ := starCls_sound (P := fun _ => True) (fun _ _ => trivial) s _ out h
    exact ⟨s', caps, id, hk⟩
  | grp i r ih =>
    intro hg s caps k out h
    by_cases hi : i = 0
    · subst hi
      have hbody : r = amtBody := by
        have hg2 := hg
        unfold groupsAmt at hg2
        rw [if_pos (by simp)] at hg2
        exact beq_iff_eq.mp hg2
      subst hbody
      have h1 : reMatch ci amtBody s caps
          (fun s1 c1 => k s1 ((0, s.take (s.length - s1.length)) :: c1)) = some out := h
      obtain ⟨s', hcons, hk⟩ := amtBody_consumed ci s caps _ out h1
      refine ⟨s', (0, s.take (s.length - s'.length)) :: caps, ?_, hk⟩
      intro hc e he h0
      rcases List.mem_cons.mp he with rfl | he
      · intro c hcm
        obtain ⟨n, hn, hs', hp⟩ := hcons
        have hlen : s.length - s'.length = n := by
          rw [hs', List.length_drop]
          omega
        simp only [hlen] at hcm
        exact hp c hcm
      · exact hc e he h0
    · have hng : noG0 r = true := by
        have hg2 := hg
        unfold groupsAmt at hg2
        rwa [if_neg (by simpa using hi)] at hg2
      have h1 : reMatch ci r s caps
          (fun s1 c1 => k s1 ((i, s.take (s.length - s1.length)) :: c1)) = some out := h
      obtain ⟨s1, caps1, hp, hk1⟩ := reMatch_noG0 ci r hng s caps _ out h1
      refine ⟨s1, (i, s.take (s.length - s1.length)) :: caps1, ?_, hk1⟩
      intro hc e he h0
      rcases List.mem_cons.mp he with rfl | he
      · exact absurd h0 (by simpa using hi)
      · exact hp hc e he h0

theorem caps0_nil : Caps0OK [] := by
  intro e he
  simp at he

theorem reFind_caps0 {ci : Bool} {r : RE} (hr : groupsAmt r = true) :
    ∀ (s m : List Char) (caps : Caps), reFind ci r s = some (m, caps) → Caps0OK caps := by
  intro s
  induction s with
  | nil =>
    intro m caps h
    unfold reFind at h
    obtain ⟨s1, caps1, hp, hk⟩ := reMatch_groupsAmt ci r hr [] [] _ _ h
    have heq := Option.some.inj hk
    have hcaps : caps = caps1 := congrArg Prod.snd heq.symm
    rw [hcaps]
    exact hp caps0_nil
  | cons c t ih =>
    intro m caps h
    unfold reFind at h
    cases hm : reMatch ci r (c :: t) []
        (fun s1 caps' => some ((c :: t).take ((c :: t).length - s1.length), caps')) with
    | some res =>
      rw [hm] at h
      cases h
      obtain ⟨s1, caps1, hp, hk⟩ := reMatch_groupsAmt ci r hr (c :: t) [] _ _ hm
      have heq := Option.some.inj hk
      have hcaps : caps = caps1 := congrArg Prod.snd heq.symm
      rw [hcaps]
      exact hp caps0_nil
    | none =>
      rw [hm] at h
      exact ih m caps h

theorem getGroup_amtChars {caps : Caps} (h : Caps0OK caps) :
    ∀ c ∈ (getGroup caps 0).data, amtChar c = true := by
  unfold getGroup
  cases hf : caps.find? (fun e => e.1 == 0) with
  | none => intro c hc; simp at hc
  | some e =>
    intro c hc
    have hmem := List.mem_of_find?_eq_some hf
    have heq : e.1 = 0 := by simpa using List.find?_some hf
    exact h e hmem heq c (by simpa using hc)

theorem mantVal_nonneg (ip fp : List Char) : 0 ≤ mantVal ip fp := by
  unfold mantVal
  rw [Rat.mkRat_eq_div]
  positivity

theorem parseFloatCore_nonneg {l : List Char} {q : ℚ} (h : parseFloatCore l = some q) :
    0 ≤ q := by
  unfold parseFloatCore at h
  dsimp only at h
  split at h
  · exact absurd h (by simp)
  · split at h
    · cases h
      exact mantVal_nonneg _ _
    · split at h
      · split at h
        · exact absurd h (by simp)
        · cases h
          exact mul_nonneg (mantVal_nonneg _ _) (le_of_lt (zpow_pos (by norm_num) _))
      · exact absurd h (by simp)

theorem beq_false_of_toNat_ne {a b : Char} (h : a.toNat ≠ b.toNat) : (a == b) = false := by
  rw [Bool.eq_false_iff]
  intro hb
  exact h (char_beq_iff.mp hb)

theorem amtChar_cases {c : Char} (h : amtChar c = true) :
    (48 ≤ c.toNat ∧ c.toNat ≤ 57) ∨ c = ',' ∨ c = '.' := by
  simp only [amtChar, Bool.or_eq_true, beq_iff_eq] at h
  rcases h with (h | h) | h
  · exact Or.inl (char_isDigit_iff.mp h)
  · exact Or.inr (Or.inl h)
  · exact Or.inr (Or.inr h)

theorem amtChar_notSpace {c : Char} (h : amtChar c = true) : isSpaceB c = false := by
  rcases amtChar_cases h with hd | rfl | rfl
  · unfold isSpaceB
    rw [beq_false_of_toNat_ne (show c.toNat ≠ (' ' : Char).toNat by
        rw [show (' ' : Char).toNat = 32 from rfl]; omega),
      beq_false_of_toNat_ne (show c.toNat ≠ ('\t' : Char).toNat by
        rw [show ('\t' : Char).toNat = 9 from rfl]; omega),
      beq_false_of_toNat_ne (show c.toNat ≠ ('\n' : Char).toNat by
        rw [show ('\n' : Char).toNat = 10 from rfl]; omega),
      beq_false_of_toNat_ne (show c.toNat ≠ ('\r' : Char).toNat by
        rw [show ('\r' : Char).toNat = 13 from rfl]; omega),
      beq_false_of_toNat_ne (show c.toNat ≠ (Char.ofNat 11).toNat by
        rw [char_toNat_ofNat (by norm_num)]; omega),
      beq_false_of_toNat_ne (show c.toNat ≠ (Char.ofNat 12).toNat by
        rw [char_toNat_ofNat (by norm_num)]; omega)]
    rfl
  · decide
  · decide

theorem beq_K_amt {c : Char} (h : amtChar c = true) : ('K' == c) = false := by
  apply beq_false_of_toNat_ne
  rw [show ('K' : Char).toNat = 75 from rfl]
  rcases amtChar_cases h with hd | rfl | rfl
  · omega
  · decide
  · decide

theorem beq_k_amt {c : Char} (h : amtChar c = true) : ('k' == c) = false := by
  apply beq_false_of_toNat_ne
  rw [show ('k' : Char).toNat = 107 from rfl]
  rcases amtChar_cases h with hd | rfl | rfl
  · omega
  · decide
  · decide

theorem amtNC_toNat {c : Char} (h : amtChar c = true) (hnc : (c == ',') = false) :
    (48 ≤ c.toNat ∧ c.toNat ≤ 57) ∨ c.toNat = 46 := by
  rcases amtChar_cases h with hd | rfl | rfl
  · exact Or.inl hd
  · simp at hnc
  · exact Or.inr rfl

theorem amtNC_toUpper {c : Char} (h : amtChar c = true) (hnc : (c == ',') = false) :
    c.toUpper = c := by
  apply charToNat_inj
  rw [toUpper_toNat]
  rcases amtNC_toNat h hnc with hd | hq <;>
    (rw [if_neg]; omega)

theorem parseFloat_amt {l : List Char}
    (h : ∀ c ∈ l, amtChar c = true ∧ (c == ',') = false) :
    parseFloat l = none ∨ ∃ q : ℚ, 0 ≤ q ∧ parseFloat l = some (.fin q) := by
  cases l with
  | nil => exact Or.inl rfl
  | cons c0 rest =>
    have h0 := h c0 (by simp)
    have htn := amtNC_toNat h0.1 h0.2
    have hup := amtNC_toUpper h0.1 h0.2
    have hN : ciEq (c0 :: rest) "nan".data = false := by
      apply ciEq_cons_ne
      rw [hup]
      intro heq
      have : c0.toNat = ('n' : Char).toUpper.toNat := by rw [heq]
      rw [show ('n' : Char).toUpper.toNat = 78 from rfl] at this
      omega
    have hI : ∀ bs : List Char, ciEq (c0 :: rest) ('i' :: bs) = false := by
      intro bs
      apply ciEq_cons_ne
      rw [hup]
      intro heq
      have : c0.toNat = ('i' : Char).toUpper.toNat := by rw [heq]
      rw [show ('i' : Char).toUpper.toNat = 73 from rfl] at this
      omega
    have hplus : (c0 == '+') = false := by
      apply beq_false_of_toNat_ne
      rw [show ('+' : Char).toNat = 43 from rfl]
      omega
    have hminus : (c0 == '-') = false := by
      apply beq_false_of_toNat_ne
      rw [show ('-' : Char).toNat = 45 from rfl]
      omega
    have hsplit : splitSign (c0 :: rest) = (false, c0 :: rest) := by
      unfold splitSign
      dsimp only
      rw [hplus, if_neg Bool.false_ne_true, hminus, if_neg Bool.false_ne_true]
    unfold parseFloat
    rw [hN, if_neg Bool.false_ne_true, hsplit]
    dsimp only
    rw [hI, hI]
    rw [if_neg (by simp)]
    cases hc : parseFloatCore (c0 :: rest) with
    | none => exact Or.inl rfl
    | some q =>
      right
      exact ⟨q, parseFloatCore_nonneg hc, by simp⟩

theorem amountOk_zero : amountOk (.fin 0) := ⟨0, rfl, le_refl 0⟩

theorem parseAmount_amtChars (s : String) (h : ∀ c ∈ s.data, amtChar c = true) :
    amountOk (parseAmount s) := by
  by_cases hs : s = ""
  · rw [hs]
    exact amountOk_zero
  · unfold parseAmount
    rw [if_neg hs]
    dsimp only
    rw [trimSp_no _ (fun c hc => amtChar_notSpace (h c hc))]
    obtain ⟨l⟩ := s
    cases l with
    | nil => exact absurd rfl hs
    | cons c0 rest =>
      have hd : (String.mk (c0 :: rest)).data = c0 :: rest := rfl
      rw [hd]
      have h0 : amtChar c0 = true := h c0 (by rw [hd]; simp)
      rw [dropPfx_no _ _ (isPrefixOf_cons_ne (beq_K_amt h0)),
        dropPfx_no _ _ (isPrefixOf_cons_ne (beq_k_amt h0)),
        dropPfx_no _ _ (isPrefixOf_cons_ne (beq_K_amt h0)),
        dropPfx_no _ _ (isPrefixOf_cons_ne (beq_k_amt h0)),
        trimSp_no _ (fun c hc => amtChar_notSpace (h c (by rw [hd]; exact hc)))]
      have hall : ∀ c ∈ (c0 :: rest).filter (fun c => !(c == ',')),
          amtChar c = true ∧ (c == ',') = false := by
        intro c hc
        rw [List.mem_filter] at hc
        refine ⟨h c (by rw [hd]; exact hc.1), ?_⟩
        have := hc.2
        simp only [Bool.not_eq_true'] at this
        exact this
      rcases parseFloat_amt hall with hnone | ⟨q, hq, hsome⟩
      · rw [hnone]
        exact amountOk_zero
      · rw [hsome]
        exact ⟨q, rfl, hq⟩

theorem amount_from_pattern {ci : Bool} {r : RE} {s m : List Char} {caps : Caps}
    (hr : groupsAmt r = true) (hf : reFind ci r s = some (m, caps)) :
    amountOk (parseAmount (getGroup caps 0)) :=
  parseAmount_amtChars _ (getGroup_amtChars (reFind_caps0 hr s m caps hf))



theorem parseAirtel_inv {log : String} {txn t : Transaction} ( _ha : amountOk txn.amount)
    (h : parseAirtel log txn = some t) :
    amountOk t.amount ∧ t.type ≠ .TxnUnknown := by
  unfold parseAirtel at h
  split at h
  next m caps heq =>
    cases h
    exact ⟨@amount_from_pattern true airtelReceivedPat log.data m caps (by decide) heq, by simp⟩
  next =>
  split at h
  next m caps heq =>
    cases h
    exact ⟨@amount_from_pattern true airtelSentPat log.data m caps (by decide) heq, by simp⟩
  next =>
  split at h
  next =>
    split at h
    next m caps heq =>
      cases h
      exact ⟨@amount_from_pattern false amountPat log.data m caps (by decide) heq, by simp⟩
    next => exact absurd h (by simp)
  next => exact absurd h (by simp)

theorem parseHustler_inv {log : String} {txn t : Transaction} (ha : amountOk txn.amount)
    (h : parseHustler log txn = some t) :
    amountOk t.amount ∧ t.type ≠ .TxnUnknown := by
  unfold parseHustler at h
  split at h
  next m caps heq =>
    cases h
    exact ⟨@amount_from_pattern true hustlerLoanPat log.data m caps (by decide) heq, by simp⟩
  next =>
  split at h
  next m caps heq =>
    cases h
    exact ⟨@amount_from_pattern true hustlerRepayPat log.data m caps (by decide) heq, by simp⟩
  next =>
  split at h
  next m caps heq =>
    cases h
    exact ⟨ha, by simp⟩
  next => exact absurd h (by simp)

theorem parseOkoa_inv {log : String} {txn t : Transaction} (ha : amountOk txn.amount)
    (h : parseOkoa log txn = some t) :
    amountOk t.amount ∧ t.type ≠ .TxnUnknown := by
  unfold parseOkoa at h
  split at h
  next m caps heq =>
    cases h
    exact ⟨@amount_from_pattern true okoaReceivedPat log.data m caps (by decide) heq, by simp⟩
  next =>
  split at h
  next m caps heq =>
    cases h
    exact ⟨ha, by simp⟩
  next =>
  split at h
  next m caps heq =>
    cases h
    exact ⟨@amount_from_pattern true okoaRepayPat log.data m caps (by decide) heq, by simp⟩
  next => exact absurd h (by simp)

theorem parseMMF_inv {log : String} {txn t : Transaction} ( _ha : amountOk txn.amount)
    (h : parseMMF log txn = some t) :
    amountOk t.amount ∧ t.type ≠ .TxnUnknown := by
  unfold parseMMF at h
  split at h
  next m caps heq =>
    cases h
    exact ⟨@amount_from_pattern true mshwariDepositPat log.data m caps (by decide) heq, by simp⟩
  next =>
  split at h
  next m caps heq =>
    cases h
    exact ⟨@amount_from_pattern true mshwariWithdrawPat log.data m caps (by decide) heq, by simp⟩
  next =>
  split at h
  next m caps heq =>
    cases h
    exact ⟨@amount_from_pattern true kcbMpesaSavePat log.data m caps (by decide) heq, by simp⟩
  next =>
  split at h
  next m caps heq =>
    cases h
    exact ⟨@amount_from_pattern true maliSavePat log.data m caps (by decide) heq, by simp⟩
  next =>
  split at h
  next m caps heq =>
    cases h
    exact ⟨@amount_from_pattern true stawiSavePat log.data m caps (by decide) heq, by simp⟩
  next =>
  split at h
  next =>
    split at h
    next m caps heq =>
      cases h
      exact ⟨@amount_from_pattern false amountPat log.data m caps (by decide) heq, by simp⟩
    next => exact absurd h (by simp)
  next => exact absurd h (by simp)

theorem parseTKash_inv {log : String} {txn t : Transaction} ( _ha : amountOk txn.amount)
    (h : parseTKash log txn = some t) :
    amountOk t.amount ∧ t.type ≠ .TxnUnknown := by
  unfold parseTKash at h
  split at h
  next m caps heq =>
    cases h
    exact ⟨@amount_from_pattern true tkashReceivedPat log.data m caps (by decide) heq, by simp⟩
  next =>
  split at h
  next m caps heq =>
    cases h
    exact ⟨@amount_from_pattern true tkashSentPat log.data m caps (by decide) heq, by simp⟩
  next => exact absurd h (by simp)

theorem parseFuliza_inv {log : String} {txn t : Transaction} ( _ha : amountOk txn.amount)
    (h : parseFuliza log txn = some t) :
    amountOk t.amount ∧ t.type ≠ .TxnUnknown := by
  unfold parseFuliza at h
  split at h
  next m caps heq =>
    cases h
    exact ⟨@amount_from_pattern true fulizaLoanPat log.data m caps (by decide) heq, by simp⟩
  next =>
  split at h
  next m caps heq =>
    cases h
    exact ⟨@amount_from_pattern true fulizaRepayPat log.data m caps (by decide) heq, by simp⟩
  next => exact absurd h (by simp)

theorem parseDigitalLender_inv {log : String} {txn t : Transaction} ( _ha : amountOk txn.amount)
    (h : parseDigitalLender log txn = some t) :
    amountOk t.amount ∧ t.type ≠ .TxnUnknown := by
  unfold parseDigitalLender at h
  split at h
  next m caps heq =>
    cases h
    exact ⟨@amount_from_pattern true loanDisbursementPat log.data m caps (by decide) heq, by simp⟩
  next =>
  split at h
  next m caps heq =>
    cases h
    exact ⟨@amount_from_pattern true loanRepaymentPat log.data m caps (by decide) heq, by simp⟩
  next =>
  split at h
  next =>
    split at h
    next m caps heq =>
      dsimp only at h
      cases h
      refine ⟨@amount_from_pattern false amountPat log.data m caps (by decide) heq, ?_⟩
      dsimp only
      split <;> simp
    next => exact absurd h (by simp)
  next => exact absurd h (by simp)

theorem parseMPesaAndOthers_inv {log : String} {txn t : Transaction} (ha : amountOk txn.amount)
    (h : parseMPesaAndOthers log txn = some t) :
    amountOk t.amount ∧ t.type ≠ .TxnUnknown := by
  unfold parseMPesaAndOthers at h
  split at h
  next m caps heq =>
    cases h
    exact ⟨@amount_from_pattern true mpesaReceivedPat log.data m caps (by decide) heq, by simp⟩
  next =>
  split at h
  next m caps heq =>
    cases h
    exact ⟨@amount_from_pattern true mpesaSentPat log.data m caps (by decide) heq, by simp⟩
  next =>
  split at h
  next m caps heq =>
    cases h
    exact ⟨@amount_from_pattern true mpesaPaybillPat log.data m caps (by decide) heq, by simp⟩
  next =>
  split at h
  next m caps heq =>
    cases h
    exact ⟨@amount_from_pattern true mpesaBuyGoodsPat log.data m caps (by decide) heq, by simp⟩
  next =>
  split at h
  next =>
    split at h
    next m caps heq =>
      cases h
      exact ⟨@amount_from_pattern false amountPat log.data m caps (by decide) heq, by simp⟩
    next =>
      cases h
      exact ⟨ha, by simp⟩
  next =>
  split at h
  next =>
    split at h
    next m caps heq =>
      cases h
      exact ⟨@amount_from_pattern true bankDepositPat log.data m caps (by decide) heq, by simp⟩
    next =>
    split at h
    next m caps heq =>
      cases h
      exact ⟨@amount_from_pattern true bankWithdrawPat log.data m caps (by decide) heq, by simp⟩
    next => exact absurd h (by simp)
  next => exact absurd h (by simp)

theorem parseSingleLog_inv {log : String} {t : Transaction}
    (h : parseSingleLog log = some t) :
    amountOk t.amount ∧ t.type ≠ .TxnUnknown := by
  unfold parseSingleLog at h
  dsimp only at h
  split at h
  next => exact parseAirtel_inv amountOk_zero h
  next =>
  split at h
  next => exact parseHustler_inv amountOk_zero h
  next =>
  split at h
  next => exact parseOkoa_inv amountOk_zero h
  next =>
  split at h
  next => exact parseMMF_inv amountOk_zero h
  next =>
  split at h
  next => exact parseDigitalLender_inv amountOk_zero h
  next =>
  split at h
  next => exact parseTKash_inv amountOk_zero h
  next =>
  split at h
  next => exact parseFuliza_inv amountOk_zero h
  next => exact parseMPesaAndOthers_inv amountOk_zero h

/-- **C9.** Every transaction returned by a successful `ParseLogs` batch has a
non-negative finite amount and a definite (non-`TxnUnknown`) transaction type,
and the output is exactly the `filterMap` of the single-line parser over the
batch: a line matching no pattern contributes nothing. -/
theorem c9_parser_invariants (cancelled : Bool) (logs : List String)
    (txns : List Transaction) (h : ParseLogs cancelled logs = .ok txns) :
    (∀ t ∈ txns, amountOk t.amount ∧ t.type ≠ .TxnUnknown) ∧
    txns = logs.filterMap parseSingleLog := by
  unfold ParseLogs at h
  split at h
  next he =>
    cases h
    rw [List.isEmpty_iff] at he
    subst he
    exact ⟨by simp, by simp⟩
  next he =>
    cases cancelled with
    | false =>
      rw [parseLoop_nocancel logs 0 []] at h
      cases h
      refine ⟨?_, by simp⟩
      intro t ht
      simp only [List.reverse_nil, List.nil_append, List.mem_filterMap] at ht
      obtain ⟨log, _, hp⟩ := ht
      exact parseSingleLog_inv hp
    | true =>
      cases logs with
      | nil => simp [List.isEmpty] at he
      | cons a as =>
        unfold parseLoop at h
        simp at h

/-- Concrete instantiation of the C9 invariants: a one-line batch whose line
parses as a Fuliza loan. -/
theorem c9_parser_invariants_witness :
    (∀ t ∈ List.filterMap parseSingleLog ["Fuliza: You have borrowed Ksh500.00"],
      amountOk t.amount ∧ t.type ≠ .TxnUnknown) ∧
    List.filterMap parseSingleLog ["Fuliza: You have borrowed Ksh500.00"] =
      List.filterMap parseSingleLog ["Fuliza: You have borrowed Ksh500.00"] :=
  c9_parser_invariants false ["Fuliza: You have borrowed Ksh500.00"]
    (List.filterMap parseSingleLog ["Fuliza: You have borrowed Ksh500.00"]) (by rfl)
